import Mathlib

/-!
Verification development for the claude-proxy translation core.

The definitions below are a shallow embedding of the TypeScript source:
* `validateAnthropicMessage`, `validateOpenAIToolCalls`, `mapModel`,
  `formatAnthropicToOpenAI` embed the format translator module;
* `providerConfigs` and `resolveProviderConfig` embed the forwarding
  handler's provider-directive resolution.

JavaScript truthiness is modelled explicitly: an absent or null string
field is `none`, and an empty string is falsy (`strTruthy`); an array
field is truthy whenever present, even when empty (`Option.isSome`).
`JSON.stringify` on the flat string maps of the model is total and is
modelled by `jsonStringify`; `String.prototype.trim` is modelled by
`trimStr`; `String.prototype.includes` by `includesStr`.
-/

namespace ClaudeProxy

/-- Does the list `pat` occur as a leading segment of `s`? (helper for
substring containment). -/
def strStarts : List Char → List Char → Bool
  | [], _ => true
  | _ :: _, [] => false
  | p :: ps, c :: cs => p == c && strStarts ps cs

/-- Model of JavaScript `s.includes(pat)`: substring containment. -/
def includesStr (s pat : String) : Bool :=
  s.toList.tails.any (fun t => strStarts pat.toList t)

/-- Model of JavaScript `String.prototype.trim`: drop whitespace from both
ends. -/
def trimStr (s : String) : String :=
  String.mk (((s.toList.dropWhile Char.isWhitespace).reverse.dropWhile
    Char.isWhitespace).reverse)

/-- Structured JSON-like objects of the source are modelled as flat maps
from string keys to string values; this is all the claims need. -/
abbrev Obj := List (String × String)

/-- Model of `JSON.stringify` on an `Obj`.  On the acyclic data of this
model serialization always succeeds, so the function is total. -/
def jsonStringify (o : Obj) : String :=
  "\x7b" ++ String.intercalate "," (o.map (fun kv =>
    "\"" ++ kv.1 ++ "\":\"" ++ kv.2 ++ "\"")) ++ "\x7d"

/-- JavaScript truthiness of an optional string field: absent/null and the
empty string are falsy. -/
def strTruthy : Option String → Bool
  | none => false
  | some s => !(s == "")

/-! ## Target (OpenAI-style) data model -/

structure FunctionDef where
  name : String
  arguments : String
deriving DecidableEq

/-- A tool invocation record (`OpenAIToolCall` in the source; the constant
`type: "function"` tag is omitted). -/
structure OpenAIToolCall where
  id : String
  function_def : FunctionDef
deriving DecidableEq

/-- A target chat message (`OpenAIMessage` in the source).  `role` is an
arbitrary string, as in the source, where only `"assistant"` and `"tool"`
are treated specially. -/
structure OpenAIMessage where
  role : String
  content : Option String := none
  tool_calls : Option (List OpenAIToolCall) := none
  tool_call_id : Option String := none
deriving DecidableEq

/-- A system message text part; `cache_control` records whether the
ephemeral-cache marker is attached. -/
structure SystemContentPart where
  text : String
  cache_control : Bool := false
deriving DecidableEq

/-- A target system message (role is always `"system"`). -/
structure SystemMessage where
  content : List SystemContentPart
deriving DecidableEq

/-- An element of the returned payload's `messages` array: either a system
message (array-of-parts content) or an ordinary chat message. -/
inductive OutMessage where
  | sys (m : SystemMessage)
  | chat (m : OpenAIMessage)
deriving DecidableEq

/-- A provider routing directive (`ProviderConfig` in the forwarding
handler). -/
structure ProviderConfig where
  only : Option (List String) := none
  ignore : Option (List String) := none
  allow_fallbacks : Option Bool := none
  data_collection : Option String := none
  zdr : Option Bool := none
deriving DecidableEq

/-! ## Source (Anthropic-style) data model -/

/-- The content of a `tool_result` part: a string or a structured object. -/
inductive TRContent where
  | str (s : String)
  | obj (o : Obj)
deriving DecidableEq

/-- A source content part (`AnthropicContentPart` in the source). -/
inductive AnthropicContentPart where
  | text (t : String)
  | tool_use (id : String) (name : String) (input : Obj)
  | tool_result (tool_use_id : String) (content : TRContent)
deriving DecidableEq

/-- A source message's content: a plain string or an array of parts. -/
inductive AContent where
  | str (s : String)
  | parts (ps : List AnthropicContentPart)
deriving DecidableEq

/-- A source message (`AnthropicMessage` in the source): arbitrary string
role plus content. -/
structure AnthropicMessage where
  role : String
  content : AContent
deriving DecidableEq

/-- The source system prompt: a plain string or an array of segments,
each segment modelled by its `text` field. -/
inductive SystemVal where
  | str (s : String)
  | arr (items : List String)
deriving DecidableEq

/-- A source tool schema declaration. -/
structure ToolSchema where
  name : String
  description : String
  input_schema : Obj
deriving DecidableEq

/-- The source conversation (`MessageCreateParamsBase`).  Optional fields
are `Option`; the model's `temperature` is an abstract integer since no
claim inspects it. -/
structure MessageCreateParamsBase where
  model : String
  messages : List AnthropicMessage
  system : Option SystemVal := none
  temperature : Option Int := none
  tools : Option (List ToolSchema) := none
  stream : Option Bool := none
deriving DecidableEq

/-- A converted tool declaration in the payload's `tools` array. -/
structure OAIToolDef where
  name : String
  description : String
  parameters : Obj
deriving DecidableEq

/-- The returned target payload. -/
structure OpenAIPayload where
  model : String
  messages : List OutMessage
  temperature : Option Int := none
  stream : Option Bool := none
  provider : Option ProviderConfig := none
  tools : Option (List OAIToolDef) := none
deriving DecidableEq

/-! ## Input validation (`validateAnthropicMessage`) -/

/-- JavaScript truthiness of a `tool_result`'s content field: the empty
string is falsy, any object is truthy. -/
def trTruthy : TRContent → Bool
  | .str s => !(s == "")
  | .obj _ => true

/-- JavaScript truthiness of a message's content field: the empty string
is falsy, any array (even empty) is truthy. -/
def contentTruthy : AContent → Bool
  | .str s => !(s == "")
  | .parts _ => true

/-- Validation of one content part at a given index (the `switch` in
`validateAnthropicMessage`).  Checks that are vacuous in the typed model
(e.g. `typeof part.text !== "string"`) are omitted. -/
def validatePart (part : AnthropicContentPart) (index : Nat) : Except String Unit :=
  match part with
  | .text _ => Except.ok ()
  | .tool_use id nm _ =>
    if id == "" then
      Except.error ("Tool_use content part at index " ++ toString index ++
        " must have a string id field")
    else if nm == "" then
      Except.error ("Tool_use content part at index " ++ toString index ++
        " must have a string name field")
    else Except.ok ()
  | .tool_result tid c =>
    if tid == "" then
      Except.error ("Tool_result content part at index " ++ toString index ++
        " must have a string tool_use_id field")
    else if trTruthy c then Except.ok ()
    else Except.error ("Tool_result content part at index " ++ toString index ++
      " must have content")

/-- The `forEach` over content parts, with its running index. -/
def validateParts : List AnthropicContentPart → Nat → Except String Unit
  | [], _ => Except.ok ()
  | p :: rest, i =>
    match validatePart p i with
    | Except.error e => Except.error e
    | Except.ok _ => validateParts rest (i + 1)

/-- Embedding of `validateAnthropicMessage` from the source.  The presence checks on
`role` and `content` are JavaScript falsiness checks. -/
def validateAnthropicMessage (m : AnthropicMessage) : Except String Unit :=
  if m.role == "" then Except.error "Message must have a valid role"
  else if contentTruthy m.content then
    match m.content with
    | .parts ps => validateParts ps 0
    | .str _ => Except.ok ()
  else Except.error "Message must have content"

/-- The translator's `messages.forEach` validation loop, wrapping each
failure with the offending index. -/
def validateMessagesFrom : List AnthropicMessage → Nat → Except String Unit
  | [], _ => Except.ok ()
  | m :: rest, idx =>
    match validateAnthropicMessage m with
    | Except.error e =>
      Except.error ("Invalid message at index " ++ toString idx ++ ": " ++ e)
    | Except.ok _ => validateMessagesFrom rest (idx + 1)

/-! ## Model aliasing (`mapModel`) -/

/-- The ordered keyword → OpenRouter identifier table (`MODEL_MAPPING`). -/
def MODEL_MAPPING : List (String × String) :=
  [("haiku", "z-ai/glm-4.5-air:free"),
   ("sonnet", "z-ai/glm-4.6:exacto"),
   ("opus", "tngtech/deepseek-r1t2-chimera:free")]

/-- Embedding of `mapModel` from the source: identity on identifiers containing `/`,
otherwise first keyword match in table order, otherwise identity. -/
def mapModel (anthropicModel : String) : String :=
  if includesStr anthropicModel "/" then anthropicModel
  else
    match MODEL_MAPPING.find? (fun kv => includesStr anthropicModel kv.1) with
    | some kv => kv.2
    | none => anthropicModel

/-! ## Tool-call consistency validator (`validateOpenAIToolCalls`) -/

/-- Predicate for the `"tool"` role. -/
def isToolRole (m : OpenAIMessage) : Bool := m.role == "tool"

/-- The maximal contiguous run of `tool` messages immediately following
index `i` of the input (the `while` loop collecting
`immediateToolMessages`). -/
def immediateToolMessages (msgs : List OpenAIMessage) (i : Nat) : List OpenAIMessage :=
  (msgs.drop (i + 1)).takeWhile isToolRole

/-- Membership test of the `toolMessageMap`: some immediately following
tool message carries a truthy `tool_call_id` equal to `cid` (only truthy
ids are inserted into the map). -/
def toolMessageMapHas (msgs : List OpenAIMessage) (i : Nat) (cid : String) : Bool :=
  (immediateToolMessages msgs i).any
    (fun m => strTruthy m.tool_call_id && (m.tool_call_id == some cid))

/-- Membership test of the `toolCallIds` set built from an assistant
message's invocation list. -/
def toolCallIdsHas (a : OpenAIMessage) (cid : String) : Bool :=
  (a.tool_calls.getD []).any (fun c => c.id == cid)

/-- The backward `for` loop of the tool branch: starting from index
`k - 1` and walking down, skip `tool` messages and return the first
non-tool message, if any. -/
def walkBackIdx (msgs : List OpenAIMessage) : Nat → Option OpenAIMessage
  | 0 => none
  | k + 1 =>
    match msgs[k]? with
    | none => none
    | some c => if isToolRole c then walkBackIdx msgs k else some c

/-- The tool-message branch of the validator: does the current `tool`
message at index `i` have a qualifying predecessor? -/
def hasImmediateToolCall (msgs : List OpenAIMessage) (i : Nat)
    (cur : OpenAIMessage) : Bool :=
  if i = 0 then false
  else
    match msgs[i - 1]? with
    | none => false
    | some prev =>
      if prev.role == "assistant" && prev.tool_calls.isSome then
        if strTruthy cur.tool_call_id then
          toolCallIdsHas prev (cur.tool_call_id.getD "")
        else false
      else if isToolRole prev then
        match walkBackIdx msgs i with
        | some cand =>
          if cand.role == "assistant" && cand.tool_calls.isSome then
            if strTruthy cur.tool_call_id then
              toolCallIdsHas cand (cur.tool_call_id.getD "")
            else false
          else false
        | none => false
      else false

/-- One iteration of the validator's loop at index `i`: the produced
message, or `none` when the message is dropped. -/
def validateStep (msgs : List OpenAIMessage) (i : Nat) : Option OpenAIMessage :=
  match msgs[i]? with
  | none => none
  | some cur =>
    if cur.role == "assistant" && cur.tool_calls.isSome then
      let validToolCalls :=
        (cur.tool_calls.getD []).filter (fun c => toolMessageMapHas msgs i c.id)
      let updated : OpenAIMessage :=
        if validToolCalls.isEmpty then { cur with tool_calls := none }
        else { cur with tool_calls := some validToolCalls }
      if strTruthy updated.content || updated.tool_calls.isSome then some updated
      else none
    else if isToolRole cur then
      if hasImmediateToolCall msgs i cur then some cur else none
    else some cur

/-- Embedding of `validateOpenAIToolCalls` from the source: the indexed loop over the
input, assembling the retained (possibly updated) messages in order. -/
def validateOpenAIToolCalls (msgs : List OpenAIMessage) : List OpenAIMessage :=
  (List.range msgs.length).filterMap (validateStep msgs)

/-! ## Per-message expansion (the `flatMap` body) -/

/-- Expansion of one source message into zero or more target messages. -/
def convertMessage (am : AnthropicMessage) : List OpenAIMessage :=
  match am.content with
  | .str s => [{ role := am.role, content := some s }]
  | .parts ps =>
    if am.role == "assistant" then
      let textContent := ps.foldl (fun acc p =>
        match p with
        | .text t => acc ++ t ++ "\n"
        | _ => acc) ""
      let toolCalls := ps.filterMap (fun p =>
        match p with
        | .tool_use id nm inp =>
          some { id := id, function_def := { name := nm, arguments := jsonStringify inp } }
        | _ => none)
      let trimmed := trimStr textContent
      let content : Option String := if trimmed.length > 0 then some trimmed else none
      let tcs : Option (List OpenAIToolCall) :=
        if toolCalls.length > 0 then some toolCalls else none
      if !(trimmed == "") || !toolCalls.isEmpty then
        [{ role := "assistant", content := content, tool_calls := tcs }]
      else []
    else if am.role == "user" then
      let textContent := ps.foldl (fun acc p =>
        match p with
        | .text t => acc ++ t ++ "\n"
        | _ => acc) ""
      let subsequentToolMessages := ps.filterMap (fun p =>
        match p with
        | .tool_result tid c =>
          some { role := "tool", tool_call_id := some tid,
                 content := some (match c with
                   | .str s => s
                   | .obj o => jsonStringify o) : OpenAIMessage }
        | _ => none)
      let trimmed := trimStr textContent
      (if !(trimmed == "") then
        [{ role := "user", content := some trimmed : OpenAIMessage }]
       else []) ++ subsequentToolMessages
    else []

/-! ## System message construction -/

/-- The system-message construction of the translator.  The ephemeral
cache marker is attached when the source `model` string contains
`"claude"`. -/
def mkSystemMessages (model : String) (sys : SystemVal) : List SystemMessage :=
  match sys with
  | .arr items =>
    items.map (fun t =>
      { content := [{ text := t, cache_control := includesStr model "claude" }] })
  | .str s =>
    [{ content := [{ text := s, cache_control := includesStr model "claude" }] }]

/-! ## Provider tables and chimera stripping -/

/-- The translator's own provider table (`modelProviderConfigs`); note it
differs from the forwarding handler's table. -/
def modelProviderConfigs : List (String × ProviderConfig) :=
  [("z-ai/glm-4.6:exacto",
    { only := some ["z-ai"], ignore := some ["deepinfra", "chutes", "novita"],
      allow_fallbacks := some false, data_collection := some "deny",
      zdr := some true }),
   ("z-ai/glm-4.5-air:free",
    { only := some ["z-ai"], ignore := some ["deepinfra", "chutes", "novita"],
      allow_fallbacks := some false }),
   ("tngtech/deepseek-r1t2-chimera:free",
    { only := some ["chutes"], ignore := some ["deepinfra", "novita"],
      allow_fallbacks := some false })]

/-- Key lookup in a provider table (JavaScript object indexing). -/
def lookupCfg (tbl : List (String × ProviderConfig)) (k : String) :
    Option ProviderConfig :=
  (tbl.find? (fun kv => kv.1 == k)).map (fun kv => kv.2)

/-- The per-message body of the chimera strip (`.map` callback in the
translator's `finalMessages`, identical to the forwarding handler's
strip): remove the invocation list from assistant messages, drop `tool`
messages, pass everything else through. -/
def chimeraStripOut (om : OutMessage) : Option OutMessage :=
  match om with
  | .sys s => some (.sys s)
  | .chat m =>
    if m.role == "assistant" && m.tool_calls.isSome then
      some (.chat { m with tool_calls := none })
    else if m.role == "tool" then none
    else some (.chat m)

/-- The chimera strip over a whole message list (`.map` + `.filter(Boolean)`). -/
def chimeraStripMsgs (l : List OutMessage) : List OutMessage :=
  l.filterMap chimeraStripOut

/-- The no-tool-support target identifier. -/
def chimeraId : String := "tngtech/deepseek-r1t2-chimera:free"

/-! ## The format translator (`formatAnthropicToOpenAI`) -/

/-- Embedding of `formatAnthropicToOpenAI` from the source.  Structural input errors
are returned in `Except.error`; checks that are vacuous in the typed model
(`!body`, `Array.isArray(messages)`) are omitted. -/
def formatAnthropicToOpenAI (body : MessageCreateParamsBase) :
    Except String OpenAIPayload :=
  if body.model == "" then Except.error "Model is required and must be a string"
  else
    match validateMessagesFrom body.messages 0 with
    | Except.error e => Except.error e
    | Except.ok _ =>
      let sysVal := body.system.getD (SystemVal.arr [])
      let openAIMessages := body.messages.flatMap convertMessage
      let systemMessages := mkSystemMessages body.model sysVal
      let mappedModel := mapModel body.model
      let isChimera := mappedModel == chimeraId
      let provider := lookupCfg modelProviderConfigs mappedModel
      let tools : Option (List OAIToolDef) :=
        if body.tools.isSome && !isChimera then
          some ((body.tools.getD []).map (fun t =>
            { name := t.name, description := t.description,
              parameters := t.input_schema }))
        else none
      let finalMessages :=
        if isChimera then
          chimeraStripMsgs (systemMessages.map OutMessage.sys ++
            openAIMessages.map OutMessage.chat)
        else
          systemMessages.map OutMessage.sys ++
            (validateOpenAIToolCalls openAIMessages).map OutMessage.chat
      Except.ok { model := mappedModel, messages := finalMessages,
                  temperature := body.temperature, stream := body.stream,
                  provider := provider, tools := tools }

/-! ## Provider directive resolution (forwarding handler) -/

/-- The `provider` field of a request body: a named key or an inline
directive object. -/
inductive ProviderSpec where
  | str (s : String)
  | obj (c : ProviderConfig)
deriving DecidableEq

/-- JavaScript truthiness of `body.provider`. -/
def provTruthy : Option ProviderSpec → Bool
  | none => false
  | some (.str s) => !(s == "")
  | some (.obj _) => true

/-- The forwarding handler's static provider table (`providerConfigs`). -/
def providerConfigs : List (String × ProviderConfig) :=
  [("z-ai/glm-4.6:exacto",
    { only := some ["z-ai"], ignore := some ["deepinfra", "chutes", "novita"],
      allow_fallbacks := some false, data_collection := some "deny",
      zdr := some true }),
   ("minimax/minimax-m2",
    { only := some ["minimax"], ignore := some ["deepinfra", "chutes", "novita"],
      allow_fallbacks := some false, data_collection := some "deny",
      zdr := some true }),
   ("z-ai/glm-4.5-air:free",
    { only := some ["z-ai"], ignore := some ["deepinfra", "chutes", "novita"],
      allow_fallbacks := some false }),
   ("tngtech/deepseek-r1t2-chimera:free",
    { only := some ["chutes"], ignore := some ["deepinfra", "novita"],
      allow_fallbacks := some false })]

/-- Embedding of `resolveProviderConfig` from the forwarding handler.  `jsonParse`
models `JSON.parse` restricted to the success case producing a truthy
object (`none` covers a parse failure, `null`, and non-object values);
`hdrOpenRouterProvider` and `hdrProvider` are the values of the
`X-OpenRouter-Provider` and `X-Provider` headers. -/
def resolveProviderConfig (jsonParse : String → Option ProviderConfig)
    (bodyProvider : Option ProviderSpec)
    (hdrOpenRouterProvider hdrProvider : Option String)
    (envDefault : Option String) : Option ProviderConfig :=
  if provTruthy bodyProvider then
    match bodyProvider with
    | some (.str s) => lookupCfg providerConfigs s
    | some (.obj c) => some c
    | none => none
  else
    let headerVal :=
      if strTruthy hdrOpenRouterProvider then hdrOpenRouterProvider
      else hdrProvider
    let fromHeader :=
      if strTruthy headerVal then
        match lookupCfg providerConfigs (headerVal.getD "") with
        | some c => some c
        | none => jsonParse (headerVal.getD "")
      else none
    match fromHeader with
    | some c => some c
    | none =>
      if strTruthy envDefault then
        match lookupCfg providerConfigs (envDefault.getD "") with
        | some c => some c
        | none => none
      else none

/-! ## Spec-side checkers

These decidable checkers state the invariants the claims assert about the
validator's output; they are the formalisation of the spec's wording, to
be proved about the source embedding above. -/

/-- Does some message in the maximal contiguous run of tool messages
immediately following position `p` of `out` carry `tool_call_id = cid`? -/
def toolRunMatch (out : List OpenAIMessage) (p : Nat) (cid : String) : Bool :=
  ((out.drop (p + 1)).takeWhile isToolRole).any
    (fun m => m.tool_call_id == some cid)

/-- Checker for the assistant side of the no-orphan invariant: every
invocation id of every assistant message is answered in the tool run
immediately following it. -/
def checkAssistantSide (out : List OpenAIMessage) : Bool :=
  (List.range out.length).all (fun p =>
    match out[p]? with
    | some m =>
      if m.role == "assistant" then
        (m.tool_calls.getD []).all (fun c => toolRunMatch out p c.id)
      else true
    | none => true)

/-- Checker for the tool side of the no-orphan invariant: every tool
message's nearest preceding non-tool message (walking back over contiguous
tool messages) is an assistant message carrying a matching invocation. -/
def checkToolSide (out : List OpenAIMessage) : Bool :=
  (List.range out.length).all (fun p =>
    match out[p]? with
    | some m =>
      if isToolRole m then
        match walkBackIdx out p with
        | some a =>
          a.role == "assistant" &&
            (a.tool_calls.getD []).any (fun c => some c.id == m.tool_call_id)
        | none => false
      else true
    | none => true)

/-- Both sides of the no-orphan invariant. -/
def checkNoOrphans (out : List OpenAIMessage) : Bool :=
  checkAssistantSide out && checkToolSide out

/-- An assistant message is informationally non-empty: it has some content
or a non-empty invocation list. -/
def assistantNonEmpty (m : OpenAIMessage) : Bool :=
  m.content.isSome || !(m.tool_calls.getD []).isEmpty

/-- The system messages of a payload's message list, in order. -/
def sysMsgsOf (l : List OutMessage) : List SystemMessage :=
  l.filterMap (fun om =>
    match om with
    | .sys s => some s
    | .chat _ => none)

/-- Is an `Except` result an error? -/
def isErr : Except String Unit → Bool
  | .error _ => true
  | .ok _ => false

/-- The environment-default step of provider resolution (step 3 of the
precedence). -/
def envResolve (env : Option String) : Option ProviderConfig :=
  if strTruthy env then
    match lookupCfg providerConfigs (env.getD "") with
    | some c => some c
    | none => none
  else none

/-- The header step of provider resolution applied to a header value `v`:
first a named key, then inline JSON, then the environment default. -/
def headerResolve (jsonParse : String → Option ProviderConfig) (v : String)
    (env : Option String) : Option ProviderConfig :=
  match lookupCfg providerConfigs v with
  | some c => some c
  | none =>
    match jsonParse v with
    | some c => some c
    | none => envResolve env

/-- Placeholder message for `Option.getD`. -/
def defaultOAIMessage : OpenAIMessage := { role := "" }

/-- The input indices the validator retains, in order. -/
def keptIdx (msgs : List OpenAIMessage) : List Nat :=
  (List.range msgs.length).filter (fun i => (validateStep msgs i).isSome)

/-- The message produced at a retained input index. -/
def stepVal (msgs : List OpenAIMessage) (i : Nat) : OpenAIMessage :=
  (validateStep msgs i).getD defaultOAIMessage

/-! ## Concrete conversations used by the claim witnesses and
counterexamples -/

/-- A conversation whose aliased model is the no-tool-support target and
whose single assistant message carries only a tool invocation. -/
def chimeraOnlyToolUseBody : MessageCreateParamsBase :=
  { model := "opus",
    messages := [{ role := "assistant",
                   content := AContent.parts
                     [AnthropicContentPart.tool_use "t1" "search" []] }] }

/-- A conversation whose source model name contains `claude` but whose
aliased target does not. -/
def claudeOpusSysBody : MessageCreateParamsBase :=
  { model := "claude-opus", messages := [],
    system := some (SystemVal.str "hi") }

/-- A conversation with an absent system prompt. -/
def noSystemBody : MessageCreateParamsBase :=
  { model := "m", messages := [] }

/-- A plain conversation on a tool-supporting aliased model. -/
def sonnetPlainBody : MessageCreateParamsBase :=
  { model := "sonnet",
    messages := [{ role := "assistant", content := AContent.str "hi" }],
    system := some (SystemVal.str "sys") }

/-- The payload the translator returns for `sonnetPlainBody`. -/
def sonnetPlainPayload : OpenAIPayload :=
  { model := "z-ai/glm-4.6:exacto",
    messages :=
      [OutMessage.sys { content := [{ text := "sys", cache_control := false }] },
       OutMessage.chat { role := "assistant", content := some "hi" }],
    provider := some
      { only := some ["z-ai"], ignore := some ["deepinfra", "chutes", "novita"],
        allow_fallbacks := some false, data_collection := some "deny",
        zdr := some true } }

/-- Scenario D of the spec: a no-tool-support model with tool declarations
and an assistant invocation. -/
def scenarioDBody : MessageCreateParamsBase :=
  { model := "claude-3-opus",
    messages := [{ role := "assistant",
                   content := AContent.parts
                     [AnthropicContentPart.text "use tool",
                      AnthropicContentPart.tool_use "t1" "search" [("q", "x")]] }],
    tools := some [{ name := "search", description := "d", input_schema := [] }] }

/-- The payload the translator returns for `scenarioDBody`. -/
def scenarioDPayload : OpenAIPayload :=
  { model := "tngtech/deepseek-r1t2-chimera:free",
    messages := [OutMessage.chat { role := "assistant", content := some "use tool" }],
    provider := some
      { only := some ["chutes"], ignore := some ["deepinfra", "novita"],
        allow_fallbacks := some false } }

/-- The payload the translator returns for `claudeOpusSysBody`. -/
def claudeOpusSysPayload : OpenAIPayload :=
  { model := "tngtech/deepseek-r1t2-chimera:free",
    messages := [OutMessage.sys { content := [{ text := "hi", cache_control := true }] }],
    provider := some
      { only := some ["chutes"], ignore := some ["deepinfra", "novita"],
        allow_fallbacks := some false } }

/-- A conversation with a claude-family source model and a string system
prompt, aliased to the `haiku` target. -/
def claudeHaikuSysBody : MessageCreateParamsBase :=
  { model := "claude-3-haiku", messages := [],
    system := some (SystemVal.str "sys") }

/-- The payload the translator returns for `claudeHaikuSysBody`. -/
def claudeHaikuSysPayload : OpenAIPayload :=
  { model := "z-ai/glm-4.5-air:free",
    messages := [OutMessage.sys { content := [{ text := "sys", cache_control := true }] }],
    provider := some
      { only := some ["z-ai"], ignore := some ["deepinfra", "chutes", "novita"],
        allow_fallbacks := some false } }

/-! ## Generic list lemmas -/

theorem filterMap_eq_map_filter {α β : Type} (f : α → Option β) (d : β) :
    ∀ l : List α,
      l.filterMap f =
        (l.filter (fun a => (f a).isSome)).map (fun a => (f a).getD d)
  | [] => rfl
  | a :: t => by
    cases h : f a <;>
      simp [List.filterMap_cons, List.filter_cons, h,
        filterMap_eq_map_filter f d t]

theorem mem_takeWhile_of_getElem {α : Type} {pr : α → Bool} :
    ∀ (l : List α) (d : Nat) (x : α), l[d]? = some x →
      (∀ e : Nat, e ≤ d → ∀ y, l[e]? = some y → pr y = true) →
      x ∈ l.takeWhile pr
  | [], d, x, hx, _ => by simp at hx
  | a :: t, 0, x, hx, hall => by
    simp at hx
    have ha : pr a = true := hall 0 (Nat.le_refl 0) a (by simp)
    subst hx
    simp [List.takeWhile_cons, ha]
  | a :: t, d + 1, x, hx, hall => by
    have ha : pr a = true := hall 0 (Nat.zero_le _) a (by simp)
    simp only [List.getElem?_cons_succ] at hx
    have hrec := mem_takeWhile_of_getElem t d x hx
      (fun e he y hy => hall (e + 1) (Nat.succ_le_succ he) y (by simpa using hy))
    simp [List.takeWhile_cons, ha, hrec]

theorem exists_getElem_of_mem_takeWhile {α : Type} {pr : α → Bool} :
    ∀ (l : List α) (x : α), x ∈ l.takeWhile pr →
      ∃ d : Nat, l[d]? = some x ∧
        ∀ e : Nat, e ≤ d → ∀ y, l[e]? = some y → pr y = true
  | [], x, hx => by simp at hx
  | a :: t, x, hx => by
    by_cases ha : pr a = true
    · rw [List.takeWhile_cons, if_pos ha] at hx
      rcases List.mem_cons.1 hx with h | h
      · subst h
        refine ⟨0, by simp, fun e he y hy => ?_⟩
        have he0 : e = 0 := Nat.le_zero.1 he
        subst he0
        simp at hy
        subst hy
        exact ha
      · rcases exists_getElem_of_mem_takeWhile t x h with ⟨d, hd, hall⟩
        refine ⟨d + 1, by simpa using hd, fun e he y hy => ?_⟩
        cases e with
        | zero =>
          simp at hy
          subst hy
          exact ha
        | succ e =>
          exact hall e (Nat.le_of_succ_le_succ he) y (by simpa using hy)
    · rw [List.takeWhile_cons, if_neg ha] at hx
      simp at hx

/-! ## Boolean and truthiness helpers -/

theorem isToolRole_false_of_assistant {m : OpenAIMessage}
    (h : (m.role == "assistant") = true) : isToolRole m = false := by
  have hm : m.role = "assistant" := by simpa using h
  simp [isToolRole, hm]

theorem assistant_false_of_isToolRole {m : OpenAIMessage}
    (h : isToolRole m = true) : (m.role == "assistant") = false := by
  have hm : m.role = "tool" := by simpa [isToolRole] using h
  simp [hm]

theorem strTruthy_some_of_ne {cid : String} (h : (cid == "") = false) :
    strTruthy (some cid) = true := by
  simp [strTruthy, h]

theorem strTruthy_eq_some {o : Option String} (h : strTruthy o = true) :
    ∃ s, o = some s ∧ (s == "") = false := by
  cases o with
  | none => simp [strTruthy] at h
  | some s =>
    refine ⟨s, rfl, ?_⟩
    simpa [strTruthy] using h

/-! ## `walkBackIdx` characterisation -/

theorem walkBackIdx_eq_some {msgs : List OpenAIMessage} :
    ∀ (j : Nat) (c : OpenAIMessage), walkBackIdx msgs j = some c →
      ∃ a, a < j ∧ msgs[a]? = some c ∧ isToolRole c = false ∧
        ∀ b, a < b → b < j → ∃ mb, msgs[b]? = some mb ∧ isToolRole mb = true
  | 0, c, h => by simp [walkBackIdx] at h
  | k + 1, c, h => by
    cases hk : msgs[k]? with
    | none => simp [walkBackIdx, hk] at h
    | some mk =>
      simp only [walkBackIdx, hk] at h
      by_cases ht : isToolRole mk = true
      · rw [if_pos ht] at h
        rcases walkBackIdx_eq_some k c h with ⟨a, hak, hc, hnt, hmid⟩
        refine ⟨a, Nat.lt_succ_of_lt hak, hc, hnt, fun b hab hbk => ?_⟩
        by_cases hbe : b = k
        · subst hbe; exact ⟨mk, hk, ht⟩
        · exact hmid b hab (by omega)
      · rw [if_neg ht] at h
        have hc : mk = c := by simpa using h
        subst hc
        refine ⟨k, Nat.lt_succ_self k, hk, by simpa using ht,
          fun b hab hbk => by omega⟩

theorem walkBackIdx_eq_some_of {msgs : List OpenAIMessage} {a : Nat}
    {c : OpenAIMessage} (hc : msgs[a]? = some c) (hnt : isToolRole c = false) :
    ∀ (j : Nat), a < j →
      (∀ b, a < b → b < j → ∃ mb, msgs[b]? = some mb ∧ isToolRole mb = true) →
      walkBackIdx msgs j = some c
  | 0, haj, _ => absurd haj (Nat.not_lt_zero a)
  | k + 1, haj, hmid => by
    by_cases hak : a = k
    · subst hak
      simp only [walkBackIdx, hc]
      rw [if_neg (by simp [hnt])]
    · have hlt : a < k := by omega
      rcases hmid k hlt (Nat.lt_succ_self k) with ⟨mk, hk, ht⟩
      simp only [walkBackIdx, hk]
      rw [if_pos ht]
      exact walkBackIdx_eq_some_of hc hnt k hlt
        (fun b hab hbk => hmid b hab (Nat.lt_succ_of_lt hbk))

/-! ## `hasImmediateToolCall` characterisation -/

theorem hasImmediateToolCall_spec {msgs : List OpenAIMessage} {i : Nat}
    {cur : OpenAIMessage} (h : hasImmediateToolCall msgs i cur = true) :
    ∃ a A cid, a < i ∧ msgs[a]? = some A ∧ (A.role == "assistant") = true ∧
      A.tool_calls.isSome = true ∧ cur.tool_call_id = some cid ∧
      (cid == "") = false ∧ toolCallIdsHas A cid = true ∧
      ∀ b, a < b → b < i → ∃ mb, msgs[b]? = some mb ∧ isToolRole mb = true := by
  unfold hasImmediateToolCall at h
  by_cases hi : i = 0
  · rw [if_pos hi] at h; exact absurd h (by simp)
  rw [if_neg hi] at h
  cases hp : msgs[i - 1]? with
  | none => simp [hp] at h
  | some prev =>
    simp only [hp] at h
    by_cases h1 : (prev.role == "assistant" && prev.tool_calls.isSome) = true
    · rw [if_pos h1] at h
      rw [Bool.and_eq_true] at h1
      by_cases h2 : strTruthy cur.tool_call_id = true
      · rw [if_pos h2] at h
        rcases strTruthy_eq_some h2 with ⟨cid, hcid, hne⟩
        refine ⟨i - 1, prev, cid, by omega, hp, h1.1, h1.2, hcid, hne, ?_,
          fun b hab hbi => by omega⟩
        rw [hcid] at h
        exact h
      · rw [if_neg h2] at h; exact absurd h (by simp)
    · rw [if_neg h1] at h
      by_cases h3 : isToolRole prev = true
      · rw [if_pos h3] at h
        cases hw : walkBackIdx msgs i with
        | none => simp [hw] at h
        | some cand =>
          simp only [hw] at h
          by_cases h4 : (cand.role == "assistant" && cand.tool_calls.isSome) = true
          · rw [if_pos h4] at h
            rw [Bool.and_eq_true] at h4
            by_cases h5 : strTruthy cur.tool_call_id = true
            · rw [if_pos h5] at h
              rcases strTruthy_eq_some h5 with ⟨cid, hcid, hne⟩
              rcases walkBackIdx_eq_some i cand hw with ⟨a, hai, hA, _, hmid⟩
              refine ⟨a, cand, cid, hai, hA, h4.1, h4.2, hcid, hne, ?_, hmid⟩
              rw [hcid] at h
              exact h
            · rw [if_neg h5] at h; exact absurd h (by simp)
          · rw [if_neg h4] at h; exact absurd h (by simp)
      · rw [if_neg h3] at h; exact absurd h (by simp)

theorem hasImmediateToolCall_of {msgs : List OpenAIMessage} {i a : Nat}
    {cur A : OpenAIMessage} {cid : String}
    (hai : a < i) (hA : msgs[a]? = some A)
    (hrole : (A.role == "assistant") = true) (hsome : A.tool_calls.isSome = true)
    (hcid : cur.tool_call_id = some cid) (hne : (cid == "") = false)
    (hhas : toolCallIdsHas A cid = true)
    (hmid : ∀ b, a < b → b < i → ∃ mb, msgs[b]? = some mb ∧ isToolRole mb = true) :
    hasImmediateToolCall msgs i cur = true := by
  unfold hasImmediateToolCall
  rw [if_neg (by omega : ¬ i = 0)]
  have htr : strTruthy cur.tool_call_id = true := by
    rw [hcid]; exact strTruthy_some_of_ne hne
  have hgd : cur.tool_call_id.getD "" = cid := by rw [hcid]; rfl
  by_cases hA1 : a = i - 1
  · subst hA1
    simp only [hA]
    rw [if_pos (by simp [hrole, hsome]), if_pos htr, hgd]
    exact hhas
  · have hbmid : a < i - 1 := by omega
    rcases hmid (i - 1) hbmid (by omega) with ⟨prev, hp, hpt⟩
    simp only [hp]
    have hpr : (prev.role == "assistant") = false := assistant_false_of_isToolRole hpt
    rw [if_neg (by simp [hpr]), if_pos hpt]
    have hw : walkBackIdx msgs i = some A :=
      walkBackIdx_eq_some_of hA (isToolRole_false_of_assistant hrole) i hai hmid
    simp only [hw]
    rw [if_pos (by simp [hrole, hsome]), if_pos htr, hgd]
    exact hhas

/-! ## `validateStep` branch lemmas -/

theorem msg_with_tool_calls_self {m : OpenAIMessage} {cs : List OpenAIToolCall}
    (h : m.tool_calls = some cs) : { m with tool_calls := some cs } = m := by
  cases m
  simp_all

theorem validateStep_keep_other {msgs : List OpenAIMessage} {i : Nat}
    {cur : OpenAIMessage} (hc : msgs[i]? = some cur)
    (h1 : (cur.role == "assistant" && cur.tool_calls.isSome) = false)
    (h2 : isToolRole cur = false) : validateStep msgs i = some cur := by
  simp only [validateStep, hc]
  rw [if_neg (by simp [h1]), if_neg (by simp [h2])]

theorem validateStep_keep_tool {msgs : List OpenAIMessage} {i : Nat}
    {cur : OpenAIMessage} (hc : msgs[i]? = some cur) (ht : isToolRole cur = true)
    (hh : hasImmediateToolCall msgs i cur = true) :
    validateStep msgs i = some cur := by
  simp only [validateStep, hc]
  rw [if_neg (by simp [assistant_false_of_isToolRole ht]), if_pos ht, if_pos hh]

theorem validateStep_tool_out {msgs : List OpenAIMessage} {b : Nat}
    {mb m' : OpenAIMessage} (hb : msgs[b]? = some mb) (ht : isToolRole mb = true)
    (h : validateStep msgs b = some m') : m' = mb := by
  simp only [validateStep, hb] at h
  rw [if_neg (by simp [assistant_false_of_isToolRole ht]), if_pos ht] at h
  by_cases hh : hasImmediateToolCall msgs b mb = true
  · rw [if_pos hh] at h
    exact (Option.some.injEq .. ▸ h).symm
  · rw [if_neg hh] at h
    exact absurd h (by simp)

theorem validateStep_keep_assistant {msgs : List OpenAIMessage} {i : Nat}
    {cur : OpenAIMessage} {cs0 : List OpenAIToolCall} (hc : msgs[i]? = some cur)
    (hr : (cur.role == "assistant") = true) (hs : cur.tool_calls = some cs0)
    (hne : cs0.filter (fun c => toolMessageMapHas msgs i c.id) ≠ []) :
    validateStep msgs i =
      some { cur with
        tool_calls := some (cs0.filter (fun c => toolMessageMapHas msgs i c.id)) } := by
  have hgd : cur.tool_calls.getD [] = cs0 := by rw [hs]; rfl
  have hemp : (cs0.filter (fun c => toolMessageMapHas msgs i c.id)).isEmpty = false := by
    cases hf : cs0.filter (fun c => toolMessageMapHas msgs i c.id) with
    | nil => exact absurd hf hne
    | cons x xs => rfl
  have hcond1 : (cur.role == "assistant" && cur.tool_calls.isSome) = true := by
    simp [hr, hs]
  simp [validateStep, hc, hcond1, hgd, hemp]

theorem validateStep_eq_some_cases {msgs : List OpenAIMessage} {i : Nat}
    {m : OpenAIMessage} (h : validateStep msgs i = some m) :
    ∃ cur, msgs[i]? = some cur ∧
      (((cur.role == "assistant") = true ∧ ∃ cs0, cur.tool_calls = some cs0 ∧
          ((cs0.filter (fun c => toolMessageMapHas msgs i c.id) = [] ∧
            m = { cur with tool_calls := none } ∧ strTruthy cur.content = true) ∨
           (cs0.filter (fun c => toolMessageMapHas msgs i c.id) ≠ [] ∧
            m = { cur with
              tool_calls := some (cs0.filter (fun c => toolMessageMapHas msgs i c.id)) }))) ∨
       (isToolRole cur = true ∧ hasImmediateToolCall msgs i cur = true ∧ m = cur) ∨
       ((cur.role == "assistant" && cur.tool_calls.isSome) = false ∧
        isToolRole cur = false ∧ m = cur)) := by
  cases hc : msgs[i]? with
  | none => simp [validateStep, hc] at h
  | some cur =>
    refine ⟨cur, rfl, ?_⟩
    simp only [validateStep, hc] at h
    by_cases hb1 : (cur.role == "assistant" && cur.tool_calls.isSome) = true
    · rw [if_pos hb1] at h
      rw [Bool.and_eq_true] at hb1
      cases hcs : cur.tool_calls with
      | none => rw [hcs] at hb1; exact absurd hb1.2 (by simp)
      | some cs0 =>
        have hgd : cur.tool_calls.getD [] = cs0 := by rw [hcs]; rfl
        simp only [hgd] at h
        refine Or.inl ⟨hb1.1, cs0, rfl, ?_⟩
        by_cases hemp : (cs0.filter (fun c => toolMessageMapHas msgs i c.id)).isEmpty = true
        · rw [if_pos hemp] at h
          by_cases hct : strTruthy cur.content = true
          · rw [if_pos (by simpa using hct)] at h
            have hm : { cur with tool_calls := none } = m := by simpa using h
            exact Or.inl ⟨by simpa using hemp, hm.symm, hct⟩
          · rw [if_neg (by simpa using hct)] at h
            exact absurd h (by simp)
        · rw [if_neg hemp] at h
          rw [if_pos (by simp)] at h
          have hm : { cur with
              tool_calls := some (cs0.filter (fun c => toolMessageMapHas msgs i c.id)) } = m := by
            simpa using h
          exact Or.inr ⟨by simpa using hemp, hm.symm⟩
    · rw [if_neg hb1] at h
      by_cases hb2 : isToolRole cur = true
      · rw [if_pos hb2] at h
        by_cases hb3 : hasImmediateToolCall msgs i cur = true
        · rw [if_pos hb3] at h
          exact Or.inr (Or.inl ⟨hb2, hb3, by simpa using h.symm⟩)
        · rw [if_neg hb3] at h
          exact absurd h (by simp)
      · rw [if_neg hb2] at h
        exact Or.inr (Or.inr ⟨by simpa using hb1, by simpa using hb2,
          by simpa using h.symm⟩)

/-! ## Position machinery for the validator output -/

theorem validate_eq_keptIdx_map (msgs : List OpenAIMessage) :
    validateOpenAIToolCalls msgs = (keptIdx msgs).map (stepVal msgs) := by
  unfold validateOpenAIToolCalls keptIdx stepVal
  exact filterMap_eq_map_filter _ defaultOAIMessage _

theorem out_getElem? (msgs : List OpenAIMessage) (p : Nat) :
    (validateOpenAIToolCalls msgs)[p]? =
      ((keptIdx msgs)[p]?).map (stepVal msgs) := by
  rw [validate_eq_keptIdx_map]
  exact List.getElem?_map _ _ _

theorem keptIdx_sorted (msgs : List OpenAIMessage) :
    List.Pairwise (· < ·) (keptIdx msgs) :=
  (List.pairwise_lt_range _).filter _

theorem mem_keptIdx {msgs : List OpenAIMessage} {i : Nat} :
    i ∈ keptIdx msgs ↔ i < msgs.length ∧ (validateStep msgs i).isSome = true := by
  simp [keptIdx, List.mem_filter, List.mem_range]

theorem keptIdx_getElem?_mem {msgs : List OpenAIMessage} {p i : Nat}
    (h : (keptIdx msgs)[p]? = some i) : i ∈ keptIdx msgs := by
  rcases List.getElem?_eq_some.1 h with ⟨hp, he⟩
  exact he ▸ List.getElem_mem hp

theorem exists_keptIdx_getElem? {msgs : List OpenAIMessage} {i : Nat}
    (h : i ∈ keptIdx msgs) : ∃ p : Nat, (keptIdx msgs)[p]? = some i := by
  rcases List.mem_iff_getElem.1 h with ⟨p, hp, he⟩
  exact ⟨p, by rw [List.getElem?_eq_getElem hp, he]⟩

theorem keptIdx_lt {msgs : List OpenAIMessage} {p q i j : Nat}
    (hp : (keptIdx msgs)[p]? = some i) (hq : (keptIdx msgs)[q]? = some j)
    (hpq : p < q) : i < j := by
  rcases List.getElem?_eq_some.1 hp with ⟨hp1, hp2⟩
  rcases List.getElem?_eq_some.1 hq with ⟨hq1, hq2⟩
  have hR := List.pairwise_iff_getElem.1 (keptIdx_sorted msgs) p q hp1 hq1 hpq
  rw [hp2, hq2] at hR
  exact hR

theorem keptIdx_pos_lt {msgs : List OpenAIMessage} {p q i j : Nat}
    (hp : (keptIdx msgs)[p]? = some i) (hq : (keptIdx msgs)[q]? = some j)
    (hij : i < j) : p < q := by
  rcases Nat.lt_trichotomy p q with h | h | h
  · exact h
  · subst h
    rw [hp] at hq
    have : i = j := by simpa using hq
    omega
  · have := keptIdx_lt hq hp h
    omega

/-! ## `toolMessageMapHas` characterisation -/

theorem toolMessageMapHas_spec {msgs : List OpenAIMessage} {i : Nat} {cid : String}
    (h : toolMessageMapHas msgs i cid = true) :
    (cid == "") = false ∧
      ∃ j : Nat, i < j ∧
        (∃ x, msgs[j]? = some x ∧ x.tool_call_id = some cid ∧ isToolRole x = true) ∧
        ∀ b : Nat, i < b → b ≤ j →
          ∃ mb, msgs[b]? = some mb ∧ isToolRole mb = true := by
  unfold toolMessageMapHas at h
  rcases List.any_eq_true.1 h with ⟨x, hmem, hx⟩
  rw [Bool.and_eq_true] at hx
  rcases strTruthy_eq_some hx.1 with ⟨s, hsid, hsne⟩
  have hid : x.tool_call_id = some cid := by simpa using hx.2
  have hcne : (cid == "") = false := by
    rw [hsid] at hid
    have : s = cid := by simpa using hid
    subst this
    exact hsne
  rcases exists_getElem_of_mem_takeWhile _ x hmem with ⟨d, hd, hall⟩
  have htool : isToolRole x = true := by
    rcases hall d (Nat.le_refl d) x hd with ht
    exact ht
  refine ⟨hcne, i + 1 + d, by omega, ⟨x, ?_, hid, htool⟩, ?_⟩
  · rw [← List.getElem?_drop]
    exact hd
  · intro b hb1 hb2
    have he : b - (i + 1) ≤ d := by omega
    have hlen : d < (msgs.drop (i + 1)).length := (List.getElem?_eq_some.1 hd).1
    have hblen : b - (i + 1) < (msgs.drop (i + 1)).length := by omega
    refine ⟨(msgs.drop (i + 1))[b - (i + 1)], ?_, ?_⟩
    · have hgg := List.getElem?_eq_getElem hblen
      rw [List.getElem?_drop, (by omega : i + 1 + (b - (i + 1)) = b)] at hgg
      exact hgg
    · exact hall (b - (i + 1)) he _ (List.getElem?_eq_getElem hblen)

theorem toolMessageMapHas_of {msgs : List OpenAIMessage} {i j : Nat} {cid : String}
    {x : OpenAIMessage} (hij : i < j) (hx : msgs[j]? = some x)
    (hid : x.tool_call_id = some cid) (hne : (cid == "") = false)
    (hmid : ∀ b : Nat, i < b → b ≤ j →
      ∃ mb, msgs[b]? = some mb ∧ isToolRole mb = true) :
    toolMessageMapHas msgs i cid = true := by
  unfold toolMessageMapHas
  refine List.any_eq_true.2 ⟨x, ?_, ?_⟩
  · refine mem_takeWhile_of_getElem _ (j - (i + 1)) x ?_ ?_
    · rw [List.getElem?_drop, (by omega : i + 1 + (j - (i + 1)) = j)]
      exact hx
    · intro e he y hy
      rw [List.getElem?_drop] at hy
      rcases hmid (i + 1 + e) (by omega) (by omega) with ⟨mb, hmb, htb⟩
      rw [hmb] at hy
      have : mb = y := by simpa using hy
      subst this
      exact htb
  · rw [Bool.and_eq_true, hid]
    exact ⟨strTruthy_some_of_ne hne, by simp⟩

/-! ## Relating output positions to input indices -/

theorem out_getElem?_eq_some {msgs : List OpenAIMessage} {p : Nat}
    {m : OpenAIMessage} (hp : (validateOpenAIToolCalls msgs)[p]? = some m) :
    ∃ i : Nat, (keptIdx msgs)[p]? = some i ∧ validateStep msgs i = some m := by
  rw [out_getElem?] at hp
  cases hK : (keptIdx msgs)[p]? with
  | none => rw [hK] at hp; simp at hp
  | some i =>
    rw [hK] at hp
    have hm : stepVal msgs i = m := by simpa using hp
    have hsome : (validateStep msgs i).isSome = true :=
      (mem_keptIdx.1 (keptIdx_getElem?_mem hK)).2
    cases hst : validateStep msgs i with
    | none => rw [hst] at hsome; simp at hsome
    | some x =>
      refine ⟨i, rfl, ?_⟩
      have hx : stepVal msgs i = x := by rw [stepVal, hst]; rfl
      rw [hst, ← hm, hx]

theorem out_pos_of_kept {msgs : List OpenAIMessage} {i : Nat} {m : OpenAIMessage}
    (hlen : i < msgs.length) (hst : validateStep msgs i = some m) :
    ∃ q : Nat, (keptIdx msgs)[q]? = some i ∧
      (validateOpenAIToolCalls msgs)[q]? = some m := by
  have hmem : i ∈ keptIdx msgs := mem_keptIdx.2 ⟨hlen, by rw [hst]; rfl⟩
  rcases exists_keptIdx_getElem? hmem with ⟨q, hq⟩
  refine ⟨q, hq, ?_⟩
  rw [out_getElem?, hq]
  simp [stepVal, hst]

theorem out_getElem?_of_kept {msgs : List OpenAIMessage} {r b : Nat}
    (hKr : (keptIdx msgs)[r]? = some b) :
    ∃ mr, (validateOpenAIToolCalls msgs)[r]? = some mr ∧
      validateStep msgs b = some mr := by
  have hsome := (mem_keptIdx.1 (keptIdx_getElem?_mem hKr)).2
  cases hst : validateStep msgs b with
  | none => rw [hst] at hsome; simp at hsome
  | some x =>
    exact ⟨x, by rw [out_getElem?, hKr]; simp [stepVal, hst], rfl⟩

theorem keptIdx_isSome_of_lt {msgs : List OpenAIMessage} {r q j : Nat}
    (hq : (keptIdx msgs)[q]? = some j) (hrq : r < q) :
    ∃ b : Nat, (keptIdx msgs)[r]? = some b := by
  rcases List.getElem?_eq_some.1 hq with ⟨hq1, _⟩
  have hr : r < (keptIdx msgs).length := by omega
  exact ⟨_, List.getElem?_eq_getElem hr⟩

/-! ## The no-orphan invariant of the validator, input-side statements -/

theorem validate_assistant_side {msgs : List OpenAIMessage} {p : Nat}
    {m : OpenAIMessage} {cs : List OpenAIToolCall} {c : OpenAIToolCall}
    (hp : (validateOpenAIToolCalls msgs)[p]? = some m)
    (hr : (m.role == "assistant") = true)
    (hcs : m.tool_calls = some cs) (hcmem : c ∈ cs) :
    ∃ q : Nat, ∃ mq, p < q ∧ (validateOpenAIToolCalls msgs)[q]? = some mq ∧
      isToolRole mq = true ∧ mq.tool_call_id = some c.id ∧ (c.id == "") = false ∧
      ∀ r : Nat, p < r → r < q →
        ∃ mr, (validateOpenAIToolCalls msgs)[r]? = some mr ∧ isToolRole mr = true := by
  rcases out_getElem?_eq_some hp with ⟨i, hK, hst⟩
  rcases validateStep_eq_some_cases hst with ⟨cur, hcur, hbr⟩
  rcases hbr with ⟨hr1, cs0, hcs0, hsub⟩ | ⟨ht, _, hm⟩ | ⟨hb1, _, hm⟩
  · rcases hsub with ⟨_, hm, _⟩ | ⟨hne, hm⟩
    · rw [hm] at hcs
      simp at hcs
    · rw [hm] at hcs
      have hcs' : cs0.filter (fun c => toolMessageMapHas msgs i c.id) = cs := by
        simpa using hcs
      rw [← hcs'] at hcmem
      rcases List.mem_filter.1 hcmem with ⟨hc0, hmh⟩
      rcases toolMessageMapHas_spec hmh with ⟨hcne, j, hij, ⟨x, hxj, hxid, hxtool⟩, hmid⟩
      -- the matching tool message at input index j is itself kept
      have hhas : toolCallIdsHas cur c.id = true := by
        unfold toolCallIdsHas
        rw [show cur.tool_calls.getD [] = cs0 from by rw [hcs0]; rfl]
        exact List.any_eq_true.2 ⟨c, hc0, by simp⟩
      have himm : hasImmediateToolCall msgs j x = true :=
        hasImmediateToolCall_of hij hcur hr1 (by rw [hcs0]; rfl) hxid hcne hhas
          (fun b hb1 hb2 => hmid b hb1 (by omega))
      have hstj : validateStep msgs j = some x := validateStep_keep_tool hxj hxtool himm
      have hjlen : j < msgs.length := (List.getElem?_eq_some.1 hxj).1
      rcases out_pos_of_kept hjlen hstj with ⟨q, hqK, hqOut⟩
      have hpq : p < q := keptIdx_pos_lt hK hqK hij
      refine ⟨q, x, hpq, hqOut, hxtool, hxid, hcne, ?_⟩
      intro r hpr hrq
      rcases keptIdx_isSome_of_lt hqK hrq with ⟨b, hKr⟩
      have hib : i < b := keptIdx_lt hK hKr hpr
      have hbj : b < j := keptIdx_lt hKr hqK hrq
      rcases hmid b hib (by omega) with ⟨mb, hmb, htb⟩
      rcases out_getElem?_of_kept hKr with ⟨mr, hrOut, hstb⟩
      have : mr = mb := validateStep_tool_out hmb htb hstb
      exact ⟨mr, hrOut, by rw [this]; exact htb⟩
  · -- tool branch: contradicts the assistant role
    rw [hm] at hr
    rw [assistant_false_of_isToolRole ht] at hr
    exact absurd hr (by simp)
  · -- pass-through branch: the invocation list would have to be absent
    rw [hm] at hr hcs
    rw [hr, Bool.true_and] at hb1
    have : cur.tool_calls = none := by simpa using hb1
    rw [this] at hcs
    simp at hcs

theorem validate_tool_side {msgs : List OpenAIMessage} {p : Nat}
    {m : OpenAIMessage} (hp : (validateOpenAIToolCalls msgs)[p]? = some m)
    (hr : isToolRole m = true) :
    ∃ q : Nat, ∃ ma cs c, q < p ∧ (validateOpenAIToolCalls msgs)[q]? = some ma ∧
      (ma.role == "assistant") = true ∧ ma.tool_calls = some cs ∧ c ∈ cs ∧
      m.tool_call_id = some c.id ∧ (c.id == "") = false ∧
      ∀ r : Nat, q < r → r < p →
        ∃ mr, (validateOpenAIToolCalls msgs)[r]? = some mr ∧ isToolRole mr = true := by
  rcases out_getElem?_eq_some hp with ⟨i, hK, hst⟩
  rcases validateStep_eq_some_cases hst with ⟨cur, hcur, hbr⟩
  rcases hbr with ⟨hr1, cs0, hcs0, hsub⟩ | ⟨ht, himm, hm⟩ | ⟨_, htf, hm⟩
  · -- assistant branch: contradicts the tool role
    have hrole : m.role = cur.role := by
      rcases hsub with ⟨_, hm, _⟩ | ⟨_, hm⟩ <;> rw [hm]
    have : isToolRole cur = true := by
      rw [isToolRole, ← hrole]
      exact hr
    rw [assistant_false_of_isToolRole this] at hr1
    exact absurd hr1 (by simp)
  · subst hm
    rcases hasImmediateToolCall_spec himm with
      ⟨a, A, cid, hai, hA, hArole, hAsome, hcid, hcne, hhas, hmid⟩
    rcases (by cases hAcs : A.tool_calls with
      | none => rw [hAcs] at hAsome; simp at hAsome
      | some cs0 => exact ⟨cs0, rfl⟩ :
        ∃ cs0, A.tool_calls = some cs0) with ⟨cs0, hAcs⟩
    have hgd : A.tool_calls.getD [] = cs0 := by rw [hAcs]; rfl
    rcases List.any_eq_true.1 (by rw [toolCallIdsHas, hgd] at hhas; exact hhas)
      with ⟨c, hc0, hcbeq⟩
    have hcidc : c.id = cid := by simpa using hcbeq
    -- the invocation of A with id `cid` survives filtering at index a
    have hmmh : toolMessageMapHas msgs a c.id = true := by
      refine toolMessageMapHas_of hai hcur (by rw [hcidc]; exact hcid)
        (by rw [hcidc]; exact hcne) ?_
      intro b hb1 hb2
      by_cases hbe : b = i
      · subst hbe; exact ⟨m, hcur, hr⟩
      · exact hmid b hb1 (by omega)
    have hcval : c ∈ cs0.filter (fun c => toolMessageMapHas msgs a c.id) :=
      List.mem_filter.2 ⟨hc0, hmmh⟩
    have hvne : cs0.filter (fun c => toolMessageMapHas msgs a c.id) ≠ [] :=
      List.ne_nil_of_mem hcval
    have hsta : validateStep msgs a =
        some { A with
          tool_calls := some (cs0.filter (fun c => toolMessageMapHas msgs a c.id)) } :=
      validateStep_keep_assistant hA hArole hAcs hvne
    have halen : a < msgs.length := (List.getElem?_eq_some.1 hA).1
    rcases out_pos_of_kept halen hsta with ⟨q, hqK, hqOut⟩
    have hqp : q < p := keptIdx_pos_lt hqK hK hai
    refine ⟨q, _, cs0.filter (fun c => toolMessageMapHas msgs a c.id), c, hqp, hqOut,
      by simpa using hArole, rfl, hcval, by rw [hcidc]; exact hcid,
      by rw [hcidc]; exact hcne, ?_⟩
    intro r hqr hrp
    rcases keptIdx_isSome_of_lt hK hrp with ⟨b, hKr⟩
    have hab : a < b := keptIdx_lt hqK hKr hqr
    have hbi : b < i := keptIdx_lt hKr hK hrp
    rcases hmid b hab hbi with ⟨mb, hmb, htb⟩
    rcases out_getElem?_of_kept hKr with ⟨mr, hrOut, hstb⟩
    have : mr = mb := validateStep_tool_out hmb htb hstb
    exact ⟨mr, hrOut, by rw [this]; exact htb⟩
  · subst hm
    rw [htf] at hr
    exact absurd hr (by simp)

/-! ## Output-side no-orphan facts -/

theorem toolRunMatch_of_pos {out : List OpenAIMessage} {p q : Nat}
    {mq : OpenAIMessage} {cid : String} (hpq : p < q) (hq : out[q]? = some mq)
    (hqt : isToolRole mq = true) (hqid : mq.tool_call_id = some cid)
    (hmid : ∀ r : Nat, p < r → r < q →
      ∃ mr, out[r]? = some mr ∧ isToolRole mr = true) :
    toolRunMatch out p cid = true := by
  unfold toolRunMatch
  refine List.any_eq_true.2 ⟨mq, ?_, by simp [hqid]⟩
  refine mem_takeWhile_of_getElem _ (q - (p + 1)) mq ?_ ?_
  · rw [List.getElem?_drop, (by omega : p + 1 + (q - (p + 1)) = q)]
    exact hq
  · intro e he y hy
    rw [List.getElem?_drop] at hy
    by_cases hbe : p + 1 + e = q
    · rw [hbe, hq] at hy
      have : mq = y := by simpa using hy
      subst this
      exact hqt
    · rcases hmid (p + 1 + e) (by omega) (by omega) with ⟨mr, hmr, htr⟩
      rw [hmr] at hy
      have : mr = y := by simpa using hy
      subst this
      exact htr

/-! ## Idempotence machinery -/

theorem range_filterMap_getElem? {α : Type} : ∀ l : List α,
    (List.range l.length).filterMap (fun p => l[p]?) = l
  | [] => rfl
  | a :: t => by
    rw [List.length_cons, List.range_succ_eq_map, List.filterMap_cons]
    simp only [List.getElem?_cons_zero]
    rw [List.filterMap_map]
    have hco : (fun p => (a :: t)[p]?) ∘ Nat.succ = fun p => t[p]? := by
      funext p
      simp
    rw [hco, range_filterMap_getElem? t]

theorem validate_eq_self_of_steps {l : List OpenAIMessage}
    (h : ∀ (p : Nat) (m : OpenAIMessage), l[p]? = some m →
      validateStep l p = some m) :
    validateOpenAIToolCalls l = l := by
  unfold validateOpenAIToolCalls
  have hcong : ∀ p ∈ List.range l.length, validateStep l p = l[p]? := by
    intro p hp
    have hplen : p < l.length := List.mem_range.1 hp
    have hg := List.getElem?_eq_getElem hplen
    exact (h p _ hg).trans hg.symm
  rw [List.filterMap_congr hcong]
  exact range_filterMap_getElem? l

theorem validate_step_fixed {msgs : List OpenAIMessage} {p : Nat}
    {m : OpenAIMessage}
    (hp : (validateOpenAIToolCalls msgs)[p]? = some m) :
    validateStep (validateOpenAIToolCalls msgs) p = some m := by
  rcases out_getElem?_eq_some hp with ⟨i, hK, hst⟩
  rcases validateStep_eq_some_cases hst with ⟨cur, hcur, hbr⟩
  rcases hbr with ⟨hr1, cs0, hcs0, hsub⟩ | ⟨ht, himm, hm⟩ | ⟨hb1, htf, hm⟩
  · rcases hsub with ⟨hfe, hm, hct⟩ | ⟨hfne, hm⟩
    · -- assistant whose whole invocation list was dropped: passes through
      have hmrole : (m.role == "assistant") = true := by rw [hm]; exact hr1
      have hmtc : m.tool_calls = none := by rw [hm]
      refine validateStep_keep_other hp ?_ (isToolRole_false_of_assistant hmrole)
      rw [hmtc]
      simp
    · -- assistant with surviving invocations: all still matched in the output
      have hmrole : (m.role == "assistant") = true := by rw [hm]; exact hr1
      have hmtc : m.tool_calls =
          some (cs0.filter (fun c => toolMessageMapHas msgs i c.id)) := by
        rw [hm]
      have hall : ∀ c ∈ cs0.filter (fun c => toolMessageMapHas msgs i c.id),
          toolMessageMapHas (validateOpenAIToolCalls msgs) p c.id = true := by
        intro c hc
        rcases validate_assistant_side hp hmrole hmtc hc with
          ⟨q, mq, hpq, hq, hqt, hqid, hcne, hmidout⟩
        refine toolMessageMapHas_of hpq hq hqid hcne ?_
        intro b hb1 hb2
        by_cases hbe : b = q
        · subst hbe; exact ⟨mq, hq, hqt⟩
        · exact hmidout b hb1 (by omega)
      have hfix : (cs0.filter (fun c => toolMessageMapHas msgs i c.id)).filter
          (fun c => toolMessageMapHas (validateOpenAIToolCalls msgs) p c.id) =
          cs0.filter (fun c => toolMessageMapHas msgs i c.id) :=
        List.filter_eq_self.2 hall
      have hres := validateStep_keep_assistant hp hmrole hmtc (by
        rw [hfix]; exact hfne)
      rw [hfix] at hres
      rw [hres, msg_with_tool_calls_self hmtc]
  · -- tool message: still matched by the retained assistant before it
    subst hm
    have hmt : isToolRole m = true := ht
    rcases validate_tool_side hp hmt with
      ⟨q, ma, cs, c, hqp, hq, hmarole, hmacs, hcmem, hmid, hcne, hmidout⟩
    have hhas : toolCallIdsHas ma c.id = true := by
      unfold toolCallIdsHas
      rw [show ma.tool_calls.getD [] = cs from by rw [hmacs]; rfl]
      exact List.any_eq_true.2 ⟨c, hcmem, by simp⟩
    have himm' : hasImmediateToolCall (validateOpenAIToolCalls msgs) p m = true :=
      hasImmediateToolCall_of hqp hq hmarole (by rw [hmacs]; rfl) hmid hcne hhas
        hmidout
    exact validateStep_keep_tool hp hmt himm'
  · -- pass-through message: passes through again
    subst hm
    exact validateStep_keep_other hp hb1 htf

/-! ## Claim C2 and C10 theorems -/

/-- C2: for every input sequence of non-system target messages, the output
of the tool-call consistency validator satisfies the no-orphan invariant:
every invocation id of a retained assistant message is answered by a tool
message in the maximal contiguous run of tool messages immediately
following it, and every retained tool message's `tool_call_id` matches an
invocation of the nearest preceding non-tool message (reached by walking
back over contiguous tool messages), which is an assistant message.
Unmatched invocations and orphan tool messages are silently removed: the
validator is a total function and never reports an error. -/
theorem claim2_theorem (msgs : List OpenAIMessage) :
    checkNoOrphans (validateOpenAIToolCalls msgs) = true := by
  unfold checkNoOrphans
  rw [Bool.and_eq_true]
  constructor
  · rw [checkAssistantSide, List.all_eq_true]
    intro p _
    cases hp : (validateOpenAIToolCalls msgs)[p]? with
    | none => simp
    | some m =>
      simp only [hp]
      by_cases hr : (m.role == "assistant") = true
      · rw [if_pos hr, List.all_eq_true]
        intro c hcmem
        cases hcs : m.tool_calls with
        | none =>
          rw [hcs] at hcmem
          simp at hcmem
        | some cs =>
          rw [hcs] at hcmem
          simp only [Option.getD_some] at hcmem
          rcases validate_assistant_side hp hr hcs hcmem with
            ⟨q, mq, hpq, hq, hqt, hqid, _, hmidout⟩
          exact toolRunMatch_of_pos hpq hq hqt hqid hmidout
      · rw [if_neg hr]
  · rw [checkToolSide, List.all_eq_true]
    intro p _
    cases hp : (validateOpenAIToolCalls msgs)[p]? with
    | none => simp
    | some m =>
      simp only [hp]
      by_cases hrt : isToolRole m = true
      · rw [if_pos hrt]
        rcases validate_tool_side hp hrt with
          ⟨q, ma, cs, c, hqp, hq, hmarole, hmacs, hcmem, hmid, _, hmidout⟩
        have hw : walkBackIdx (validateOpenAIToolCalls msgs) p = some ma :=
          walkBackIdx_eq_some_of hq (isToolRole_false_of_assistant hmarole) p
            hqp hmidout
        simp only [hw]
        rw [Bool.and_eq_true]
        refine ⟨hmarole, ?_⟩
        rw [show ma.tool_calls.getD [] = cs from by rw [hmacs]; rfl]
        exact List.any_eq_true.2 ⟨c, hcmem, by simp [hmid]⟩
      · rw [if_neg hrt]

/-- C10: the tool-call consistency validator is idempotent: applying
`validateOpenAIToolCalls` to its own output returns the output unchanged,
for every input sequence. -/
theorem claim10_theorem (msgs : List OpenAIMessage) :
    validateOpenAIToolCalls (validateOpenAIToolCalls msgs) =
      validateOpenAIToolCalls msgs :=
  validate_eq_self_of_steps (fun _ _ hp => validate_step_fixed hp)

/-! ## Claim C6 and C7 theorems (model aliasing) -/

/-- C6: model aliasing is total and acts as the identity outside the
keyword table: identifiers containing the namespace separator `/` are
returned unchanged, identifiers matching no keyword are returned
unchanged, and consequently `mapModel` is idempotent. -/
theorem claim6_theorem :
    (∀ m : String, includesStr m "/" = true → mapModel m = m) ∧
    (∀ m : String,
      (MODEL_MAPPING.all (fun kv => !(includesStr m kv.1))) = true →
      mapModel m = m) ∧
    (∀ m : String, mapModel (mapModel m) = mapModel m) := by
  refine ⟨?_, ?_, ?_⟩
  · intro m h
    rw [mapModel, if_pos h]
  · intro m h
    rw [mapModel]
    by_cases hs : includesStr m "/" = true
    · rw [if_pos hs]
    · rw [if_neg hs]
      have hnone : MODEL_MAPPING.find? (fun kv => includesStr m kv.1) = none := by
        rw [List.find?_eq_none]
        intro kv hkv
        have hk := List.all_eq_true.1 h kv hkv
        simp only [Bool.not_eq_true'] at hk
        simp [hk]
      rw [hnone]
  · intro m
    by_cases hs : includesStr m "/" = true
    · have h1 : mapModel m = m := by rw [mapModel, if_pos hs]
      rw [h1]
      exact h1
    · cases hf : MODEL_MAPPING.find? (fun kv => includesStr m kv.1) with
      | none =>
        have h1 : mapModel m = m := by rw [mapModel, if_neg hs, hf]
        rw [h1]
        exact h1
      | some kv =>
        have h1 : mapModel m = kv.2 := by rw [mapModel, if_neg hs, hf]
        have hmem := List.mem_of_find?_eq_some hf
        have hall : ∀ kv2 ∈ MODEL_MAPPING, includesStr kv2.2 "/" = true := by
          decide
        have hsep : includesStr kv.2 "/" = true := hall kv hmem
        rw [h1, mapModel, if_pos hsep]

/-- C6 witness: the theorem applied at concrete identifiers. -/
theorem claim6_witness :
    mapModel "custom-provider/custom-model" = "custom-provider/custom-model" ∧
    mapModel "gpt-4" = "gpt-4" ∧
    mapModel (mapModel "claude-3-opus") = mapModel "claude-3-opus" :=
  ⟨claim6_theorem.1 "custom-provider/custom-model" (by decide),
   claim6_theorem.2.1 "gpt-4" (by decide),
   claim6_theorem.2.2 "claude-3-opus"⟩

/-- C7: for a model identifier without a namespace separator, the earliest
matching keyword of the ordered table wins: if the keyword at index `i`
matches and no earlier keyword matches, `mapModel` returns the target of
index `i` — in particular, when two or more keywords match, the earliest
one in table order decides the result. -/
theorem claim7_theorem (m : String) (hns : includesStr m "/" = false)
    (i : Nat) (hi : i < MODEL_MAPPING.length)
    (hmatch : includesStr m (MODEL_MAPPING.get ⟨i, hi⟩).1 = true)
    (hearlier : ∀ (j : Nat) (hj : j < MODEL_MAPPING.length), j < i →
      includesStr m (MODEL_MAPPING.get ⟨j, hj⟩).1 = false) :
    mapModel m = (MODEL_MAPPING.get ⟨i, hi⟩).2 := by
  rw [mapModel, if_neg (by simp [hns])]
  have hi3 : i < 3 := hi
  interval_cases i
  · have hm0 : includesStr m "haiku" = true := hmatch
    have hfind : MODEL_MAPPING.find? (fun kv => includesStr m kv.1) =
        some ("haiku", "z-ai/glm-4.5-air:free") :=
      List.find?_cons_of_pos _ hm0
    rw [hfind]
    rfl
  · have hm0 : includesStr m "haiku" = false := hearlier 0 (by decide) (by omega)
    have hm1 : includesStr m "sonnet" = true := hmatch
    have hfind : MODEL_MAPPING.find? (fun kv => includesStr m kv.1) =
        some ("sonnet", "z-ai/glm-4.6:exacto") := by
      have hstep : MODEL_MAPPING.find? (fun kv => includesStr m kv.1) =
          List.find? (fun kv => includesStr m kv.1)
            [("sonnet", "z-ai/glm-4.6:exacto"),
             ("opus", "tngtech/deepseek-r1t2-chimera:free")] :=
        List.find?_cons_of_neg _ (by simp [hm0])
      rw [hstep]
      exact List.find?_cons_of_pos _ hm1
    rw [hfind]
    rfl
  · have hm0 : includesStr m "haiku" = false := hearlier 0 (by decide) (by omega)
    have hm1 : includesStr m "sonnet" = false := hearlier 1 (by decide) (by omega)
    have hm2 : includesStr m "opus" = true := hmatch
    have hfind : MODEL_MAPPING.find? (fun kv => includesStr m kv.1) =
        some ("opus", "tngtech/deepseek-r1t2-chimera:free") := by
      have hstep : MODEL_MAPPING.find? (fun kv => includesStr m kv.1) =
          List.find? (fun kv => includesStr m kv.1)
            [("sonnet", "z-ai/glm-4.6:exacto"),
             ("opus", "tngtech/deepseek-r1t2-chimera:free")] :=
        List.find?_cons_of_neg _ (by simp [hm0])
      rw [hstep, List.find?_cons_of_neg _ (by simp [hm1])]
      exact List.find?_cons_of_pos _ hm2
    rw [hfind]
    rfl

/-- C7 witness: `"sonnet-opus"` matches both the `sonnet` and the `opus`
keyword; the earlier keyword `sonnet` wins. -/
theorem claim7_witness : mapModel "sonnet-opus" = "z-ai/glm-4.6:exacto" := by
  have h := claim7_theorem "sonnet-opus" (by decide) 1 (by decide) (by decide)
    (fun j hj hlt => by
      interval_cases j
      exact (by decide : includesStr "sonnet-opus" "haiku" = false))
  exact h

/-! ## Claim C8 theorem (provider directive resolution) -/

/-- C8: provider directive resolution follows the precedence body >
headers (X-OpenRouter-Provider before X-Provider) > process default: an
inline body object is used as-is; a body string is looked up as a named
key (an absent key resolves to no directive, not an error); a truthy
header value is tried first as a named key and then as inline JSON before
falling back to the environment default key. -/
theorem claim8_theorem :
    (∀ (jp : String → Option ProviderConfig) (c : ProviderConfig)
        (h1 h2 env : Option String),
      resolveProviderConfig jp (some (ProviderSpec.obj c)) h1 h2 env = some c) ∧
    (∀ (jp : String → Option ProviderConfig) (k : String)
        (h1 h2 env : Option String), (k == "") = false →
      resolveProviderConfig jp (some (ProviderSpec.str k)) h1 h2 env =
        lookupCfg providerConfigs k) ∧
    (∀ (jp : String → Option ProviderConfig) (bp : Option ProviderSpec)
        (v : String) (h2 env : Option String),
      provTruthy bp = false → (v == "") = false →
      resolveProviderConfig jp bp (some v) h2 env = headerResolve jp v env) ∧
    (∀ (jp : String → Option ProviderConfig) (bp : Option ProviderSpec)
        (h1 : Option String) (v : String) (env : Option String),
      provTruthy bp = false → strTruthy h1 = false → (v == "") = false →
      resolveProviderConfig jp bp h1 (some v) env = headerResolve jp v env) ∧
    (∀ (jp : String → Option ProviderConfig) (bp : Option ProviderSpec)
        (h1 h2 env : Option String),
      provTruthy bp = false → strTruthy h1 = false → strTruthy h2 = false →
      resolveProviderConfig jp bp h1 h2 env = envResolve env) := by
  refine ⟨?_, ?_, ?_, ?_, ?_⟩
  · intro jp c h1 h2 env
    rfl
  · intro jp k h1 h2 env hk
    unfold resolveProviderConfig
    rw [if_pos (by simp [provTruthy, hk])]
  · intro jp bp v h2 env hbp hv
    have hs : strTruthy (some v) = true := strTruthy_some_of_ne hv
    unfold resolveProviderConfig
    rw [if_neg (by simp [hbp])]
    simp only [hs, if_true, Option.getD_some]
    cases hl : lookupCfg providerConfigs v with
    | some c => simp [headerResolve, hl]
    | none =>
      cases hjp : jp v with
      | some c => simp [headerResolve, hl, hjp]
      | none => simp [headerResolve, hl, hjp, envResolve]
  · intro jp bp h1 v env hbp hh1 hv
    have hs : strTruthy (some v) = true := strTruthy_some_of_ne hv
    unfold resolveProviderConfig
    rw [if_neg (by simp [hbp])]
    simp only [hh1, Bool.false_eq_true, if_false, hs, if_true, Option.getD_some]
    cases hl : lookupCfg providerConfigs v with
    | some c => simp [headerResolve, hl]
    | none =>
      cases hjp : jp v with
      | some c => simp [headerResolve, hl, hjp]
      | none => simp [headerResolve, hl, hjp, envResolve]
  · intro jp bp h1 h2 env hbp hh1 hh2
    unfold resolveProviderConfig
    rw [if_neg (by simp [hbp])]
    simp only [hh1, Bool.false_eq_true, if_false, hh2, envResolve]

/-- C8 witness: the theorem applied at concrete arguments for the inline
body object, the unknown body key, and the header named key. -/
theorem claim8_witness :
    resolveProviderConfig (fun _ => none)
      (some (ProviderSpec.obj { only := some ["z-ai"] })) none none none =
      some { only := some ["z-ai"] } ∧
    resolveProviderConfig (fun _ => none)
      (some (ProviderSpec.str "unknown-key")) none none none =
      lookupCfg providerConfigs "unknown-key" ∧
    resolveProviderConfig (fun _ => none) none
      (some "z-ai/glm-4.6:exacto") none none =
      headerResolve (fun _ => none) "z-ai/glm-4.6:exacto" none :=
  ⟨claim8_theorem.1 (fun _ => none) { only := some ["z-ai"] } none none none,
   claim8_theorem.2.1 (fun _ => none) "unknown-key" none none none (by decide),
   claim8_theorem.2.2.1 (fun _ => none) none "z-ai/glm-4.6:exacto" none none
     rfl (by decide)⟩

/-! ## Claim C9 theorem (falsiness presence checks) -/

theorem validateParts_err :
    ∀ (ps : List AnthropicContentPart) (k : Nat) (tid : String)
      (part : AnthropicContentPart), part ∈ ps →
      part = AnthropicContentPart.tool_result tid (TRContent.str "") →
      isErr (validateParts ps k) = true
  | [], _, _, _, hmem, _ => by simp at hmem
  | p0 :: rest, k, tid, part, hmem, hpart => by
    have hbad : ∀ k2 : Nat,
        isErr (validatePart (AnthropicContentPart.tool_result tid
          (TRContent.str "")) k2) = true := by
      intro k2
      rw [validatePart]
      by_cases ht : (tid == "") = true
      · rw [if_pos ht]
        rfl
      · rw [if_neg ht, if_neg (by simp [trTruthy])]
        rfl
    rcases List.mem_cons.1 hmem with h | h
    · subst h
      subst hpart
      cases hv : validatePart
          (AnthropicContentPart.tool_result tid (TRContent.str "")) k with
      | error e => simp [validateParts, hv, isErr]
      | ok _ =>
        have := hbad k
        rw [hv] at this
        exact absurd this (by simp [isErr])
    · cases hv : validatePart p0 k with
      | error e => simp [validateParts, hv, isErr]
      | ok _ =>
        simp only [validateParts, hv]
        exact validateParts_err rest (k + 1) tid part h hpart

/-- C9: the presence checks of the input validator are JavaScript
falsiness checks: a source message whose content field is the empty string
is rejected with a structural input error, and so is any message carrying
a `tool_result` part whose content field is the empty string — even though
in both cases the field is present and of string type. -/
theorem claim9_theorem :
    (∀ m : AnthropicMessage, m.content = AContent.str "" →
      isErr (validateAnthropicMessage m) = true) ∧
    (∀ (m : AnthropicMessage) (ps : List AnthropicContentPart)
        (tid : String) (part : AnthropicContentPart),
      m.content = AContent.parts ps → part ∈ ps →
      part = AnthropicContentPart.tool_result tid (TRContent.str "") →
      isErr (validateAnthropicMessage m) = true) := by
  constructor
  · intro m hc
    rw [validateAnthropicMessage]
    by_cases hrole : (m.role == "") = true
    · rw [if_pos hrole]
      rfl
    · rw [if_neg hrole, hc, if_neg (by simp [contentTruthy])]
      rfl
  · intro m ps tid part hc hmem hpart
    rw [validateAnthropicMessage]
    by_cases hrole : (m.role == "") = true
    · rw [if_pos hrole]
      rfl
    · rw [if_neg hrole, hc, if_pos (by simp [contentTruthy])]
      exact validateParts_err ps 0 tid part hmem hpart

/-- C9 witness: the theorem applied at a message with empty string content
and at a message with an empty tool-result content. -/
theorem claim9_witness :
    isErr (validateAnthropicMessage
      { role := "user", content := AContent.str "" }) = true ∧
    isErr (validateAnthropicMessage
      { role := "user",
        content := AContent.parts
          [AnthropicContentPart.tool_result "t1" (TRContent.str "")] }) = true :=
  ⟨claim9_theorem.1 _ rfl,
   claim9_theorem.2 _ _ "t1" _ rfl (List.mem_singleton.2 rfl) rfl⟩

/-! ## Structure of the translator's successful result -/

theorem format_ok_eq {body : MessageCreateParamsBase} {payload : OpenAIPayload}
    (h : formatAnthropicToOpenAI body = Except.ok payload) :
    payload =
      { model := mapModel body.model,
        messages :=
          if mapModel body.model == chimeraId then
            chimeraStripMsgs
              ((mkSystemMessages body.model
                  (body.system.getD (SystemVal.arr []))).map OutMessage.sys ++
                (body.messages.flatMap convertMessage).map OutMessage.chat)
          else
            (mkSystemMessages body.model
                (body.system.getD (SystemVal.arr []))).map OutMessage.sys ++
              (validateOpenAIToolCalls
                (body.messages.flatMap convertMessage)).map OutMessage.chat,
        temperature := body.temperature,
        stream := body.stream,
        provider := lookupCfg modelProviderConfigs (mapModel body.model),
        tools :=
          if body.tools.isSome && !(mapModel body.model == chimeraId) then
            some ((body.tools.getD []).map (fun t =>
              { name := t.name, description := t.description,
                parameters := t.input_schema }))
          else none } := by
  unfold formatAnthropicToOpenAI at h
  by_cases hm : (body.model == "") = true
  · rw [if_pos hm] at h
    exact absurd h (by simp)
  · rw [if_neg hm] at h
    cases hv : validateMessagesFrom body.messages 0 with
    | error e => simp [hv] at h
    | ok u =>
      simp only [hv] at h
      rw [Except.ok.injEq] at h
      exact h.symm

/-! ## System messages of the payload -/

theorem sysMsgsOf_cons_sys (s : SystemMessage) (t : List OutMessage) :
    sysMsgsOf (OutMessage.sys s :: t) = s :: sysMsgsOf t := by
  simp [sysMsgsOf, List.filterMap_cons]

theorem sysMsgsOf_cons_chat (m : OpenAIMessage) (t : List OutMessage) :
    sysMsgsOf (OutMessage.chat m :: t) = sysMsgsOf t := by
  simp [sysMsgsOf, List.filterMap_cons]

theorem sysMsgsOf_map_sys (a : List SystemMessage) :
    sysMsgsOf (a.map OutMessage.sys) = a := by
  induction a with
  | nil => rfl
  | cons x t ih => rw [List.map_cons, sysMsgsOf_cons_sys, ih]

theorem sysMsgsOf_map_chat (b : List OpenAIMessage) :
    sysMsgsOf (b.map OutMessage.chat) = [] := by
  induction b with
  | nil => rfl
  | cons x t ih => rw [List.map_cons, sysMsgsOf_cons_chat, ih]

theorem sysMsgsOf_append (l1 l2 : List OutMessage) :
    sysMsgsOf (l1 ++ l2) = sysMsgsOf l1 ++ sysMsgsOf l2 :=
  List.filterMap_append l1 l2 _

theorem sysMsgsOf_chimeraStrip (l : List OutMessage) :
    sysMsgsOf (chimeraStripMsgs l) = sysMsgsOf l := by
  induction l with
  | nil => rfl
  | cons om t ih =>
    cases om with
    | sys s =>
      simp only [chimeraStripMsgs, List.filterMap_cons, chimeraStripOut]
      rw [sysMsgsOf_cons_sys, sysMsgsOf_cons_sys]
      rw [show chimeraStripMsgs t = List.filterMap chimeraStripOut t from rfl]
        at ih
      rw [ih]
    | chat m =>
      simp only [chimeraStripMsgs, List.filterMap_cons, chimeraStripOut]
      rw [show List.filterMap chimeraStripOut t = chimeraStripMsgs t from rfl]
      by_cases hb1 : (m.role == "assistant" && m.tool_calls.isSome) = true
      · rw [if_pos hb1, sysMsgsOf_cons_chat, sysMsgsOf_cons_chat, ih]
      · rw [if_neg hb1]
        by_cases hb2 : (m.role == "tool") = true
        · rw [if_pos hb2, sysMsgsOf_cons_chat, ih]
        · rw [if_neg hb2, sysMsgsOf_cons_chat, sysMsgsOf_cons_chat, ih]

theorem sysMsgsOf_payload {body : MessageCreateParamsBase}
    {payload : OpenAIPayload}
    (h : formatAnthropicToOpenAI body = Except.ok payload) :
    sysMsgsOf payload.messages =
      mkSystemMessages body.model (body.system.getD (SystemVal.arr [])) := by
  rw [format_ok_eq h]
  by_cases hch : (mapModel body.model == chimeraId) = true
  · simp [hch, sysMsgsOf_chimeraStrip, sysMsgsOf_append, sysMsgsOf_map_sys,
      sysMsgsOf_map_chat]
  · simp [hch, sysMsgsOf_append, sysMsgsOf_map_sys, sysMsgsOf_map_chat]

/-! ## Informational non-emptiness through the pipeline -/

theorem str_length_pos {s : String} (h : ¬ s = "") : 0 < s.length := by
  cases s with
  | mk data =>
    cases data with
    | nil => exact absurd rfl h
    | cons c cs => simp [String.length]

theorem convertMessage_nonEmpty {am : AnthropicMessage} {mm : OpenAIMessage}
    (hmem : mm ∈ convertMessage am) : assistantNonEmpty mm = true := by
  unfold convertMessage at hmem
  cases hc : am.content with
  | str s =>
    simp only [hc] at hmem
    have hm : mm = { role := am.role, content := some s } := by simpa using hmem
    rw [hm]
    simp [assistantNonEmpty]
  | parts ps =>
    simp only [hc] at hmem
    by_cases hra : (am.role == "assistant") = true
    · rw [if_pos hra] at hmem
      split at hmem
      · next hcond =>
        have hm := List.mem_singleton.1 hmem
        rw [hm]
        simp only [assistantNonEmpty]
        rw [Bool.or_eq_true] at hcond
        rcases hcond with hne | hne
        · have hTne : ¬ (trimStr (ps.foldl (fun acc p =>
              match p with
              | AnthropicContentPart.text t => acc ++ t ++ "\n"
              | _ => acc) "") = "") := by
            simpa using hne
          rw [if_pos (str_length_pos hTne)]
          simp
        · have hTCne : (ps.filterMap (fun p =>
              match p with
              | AnthropicContentPart.tool_use id nm inp =>
                some ({ id := id,
                        function_def :=
                          { name := nm, arguments := jsonStringify inp } } :
                  OpenAIToolCall)
              | _ => none)) ≠ [] := by
            simpa using hne
          rw [if_pos (List.length_pos.2 hTCne)]
          simp [hTCne]
      · simp at hmem
    · rw [if_neg hra] at hmem
      by_cases hru : (am.role == "user") = true
      · rw [if_pos hru] at hmem
        rcases List.mem_append.1 hmem with h | h
        · split at h
          · have hm := List.mem_singleton.1 h
            rw [hm]
            simp [assistantNonEmpty]
          · simp at h
        · rcases List.mem_filterMap.1 h with ⟨p, _, hp⟩
          cases p with
          | text t => simp at hp
          | tool_use id nm inp => simp at hp
          | tool_result tid c =>
            injection hp with hm
            rw [← hm]
            simp [assistantNonEmpty]
      · rw [if_neg hru] at hmem
        simp at hmem

theorem validate_nonEmpty {msgs : List OpenAIMessage}
    (hinv : ∀ mm ∈ msgs, assistantNonEmpty mm = true) :
    ∀ mm ∈ validateOpenAIToolCalls msgs, assistantNonEmpty mm = true := by
  intro mm hmem
  rcases List.mem_filterMap.1 hmem with ⟨i, _, hstep⟩
  rcases validateStep_eq_some_cases hstep with ⟨cur, hcur, hbr⟩
  have hcurmem : cur ∈ msgs := by
    rcases List.getElem?_eq_some.1 hcur with ⟨hlt, he⟩
    exact he ▸ List.getElem_mem hlt
  rcases hbr with ⟨hr1, cs0, hcs0, hsub⟩ | ⟨_, _, hm⟩ | ⟨_, _, hm⟩
  · rcases hsub with ⟨_, hm, hct⟩ | ⟨hne, hm⟩
    · rcases strTruthy_eq_some hct with ⟨s, hs, _⟩
      rw [hm]
      simp [assistantNonEmpty, hs]
    · rw [hm]
      simp [assistantNonEmpty, hne]
  · rw [hm]
    exact hinv cur hcurmem
  · rw [hm]
    exact hinv cur hcurmem

theorem flatMap_nonEmpty (ams : List AnthropicMessage) :
    ∀ mm ∈ ams.flatMap convertMessage, assistantNonEmpty mm = true := by
  intro mm hmem
  rcases List.mem_flatMap.1 hmem with ⟨am, _, hmm⟩
  exact convertMessage_nonEmpty hmm

/-! ## Membership facts for payload messages -/

theorem chimeraStrip_chat_facts {l : List OutMessage} {mm : OpenAIMessage}
    (hmem : OutMessage.chat mm ∈ chimeraStripMsgs l) :
    (mm.role == "tool") = false ∧
      ((mm.role == "assistant") = true → mm.tool_calls = none) := by
  rcases List.mem_filterMap.1 hmem with ⟨om, _, hstrip⟩
  cases om with
  | sys s => simp [chimeraStripOut] at hstrip
  | chat m =>
    rw [chimeraStripOut] at hstrip
    by_cases hb1 : (m.role == "assistant" && m.tool_calls.isSome) = true
    · rw [if_pos hb1] at hstrip
      have hmm : { m with tool_calls := none } = mm := by simpa using hstrip
      rw [Bool.and_eq_true] at hb1
      have hrole : mm.role = m.role := by rw [← hmm]
      constructor
      · rw [hrole]
        exact isToolRole_false_of_assistant hb1.1
      · intro _
        rw [← hmm]
    · rw [if_neg hb1] at hstrip
      by_cases hb2 : (m.role == "tool") = true
      · rw [if_pos hb2] at hstrip
        simp at hstrip
      · rw [if_neg hb2] at hstrip
        have hmm : m = mm := by simpa using hstrip
        subst hmm
        refine ⟨by simpa using hb2, fun hra => ?_⟩
        rw [hra, Bool.true_and] at hb1
        simpa using hb1

theorem chat_mem_nonchimera {body : MessageCreateParamsBase}
    {payload : OpenAIPayload} {mm : OpenAIMessage}
    (h : formatAnthropicToOpenAI body = Except.ok payload)
    (hch : (mapModel body.model == chimeraId) = false)
    (hmem : OutMessage.chat mm ∈ payload.messages) :
    mm ∈ validateOpenAIToolCalls (body.messages.flatMap convertMessage) := by
  rw [format_ok_eq h] at hmem
  simp only [hch] at hmem
  rw [if_neg (by simp)] at hmem
  rcases List.mem_append.1 hmem with hl | hr
  · rcases List.mem_map.1 hl with ⟨x, _, hx⟩
    simp at hx
  · rcases List.mem_map.1 hr with ⟨x, hxmem, hx⟩
    have : x = mm := by simpa using hx
    exact this ▸ hxmem

/-! ## Claim C1 theorems (content emptiness invariant) -/

/-- C1 counterexample: on the no-tool-support (chimera) stripping path the
claimed invariant fails.  For the concrete conversation
`chimeraOnlyToolUseBody` (an assistant message consisting of a single tool
invocation, aliased model in the no-tool-support set), the translator
accepts the conversation and its returned payload contains an assistant
message with null content and no invocation list. -/
theorem claim1_counterexample :
    formatAnthropicToOpenAI chimeraOnlyToolUseBody =
      Except.ok
        { model := "tngtech/deepseek-r1t2-chimera:free",
          messages := [OutMessage.chat
            { role := "assistant", content := none, tool_calls := none,
              tool_call_id := none }],
          temperature := none, stream := none,
          provider := some
            { only := some ["chutes"], ignore := some ["deepinfra", "novita"],
              allow_fallbacks := some false, data_collection := none,
              zdr := none },
          tools := none } := by
  rfl

/-- C1 amended: for every conversation accepted by the translator whose
aliased target model is NOT in the no-tool-support set, the returned
payload's messages contain no assistant message with both null/absent
content and an empty (or absent) invocation list.  (On the no-tool-support
stripping path, which bypasses the consistency validator, the invariant
can fail: an assistant message stripped of its invocation list is kept
even when its content is null.) -/
theorem claim1_amended (body : MessageCreateParamsBase)
    (payload : OpenAIPayload)
    (h : formatAnthropicToOpenAI body = Except.ok payload)
    (hch : (mapModel body.model == chimeraId) = false)
    (mm : OpenAIMessage) (hmem : OutMessage.chat mm ∈ payload.messages)
    (_hra : (mm.role == "assistant") = true) :
    assistantNonEmpty mm = true := by
  have hv := chat_mem_nonchimera h hch hmem
  exact validate_nonEmpty (flatMap_nonEmpty body.messages) mm hv

/-- C1 witness: the amended theorem applied to a concrete conversation on
a tool-supporting aliased model. -/
theorem claim1_witness :
    assistantNonEmpty
      { role := "assistant", content := some "hi", tool_calls := none,
        tool_call_id := none } = true :=
  claim1_amended sonnetPlainBody sonnetPlainPayload rfl (by decide)
    { role := "assistant", content := some "hi" } (by decide) (by decide)

/-! ## Claim C3 theorem (no-tool-support stripping) -/

/-- C3: for every conversation accepted by the translator whose aliased
target model is in the no-tool-support set, the returned payload has no
top-level tools field, its messages contain no tool-role message, and no
assistant message carries an invocation list, regardless of the tool
declarations and invocations in the input.  The final conjunct states the
same guarantee for the stripping transform itself, which the forwarding
handler applies to arbitrary message lists. -/
theorem claim3_theorem :
    (∀ (body : MessageCreateParamsBase) (payload : OpenAIPayload),
      formatAnthropicToOpenAI body = Except.ok payload →
      (mapModel body.model == chimeraId) = true →
      payload.tools = none ∧
      ∀ mm : OpenAIMessage, OutMessage.chat mm ∈ payload.messages →
        (mm.role == "tool") = false ∧
        ((mm.role == "assistant") = true → mm.tool_calls = none)) ∧
    (∀ (l : List OutMessage) (mm : OpenAIMessage),
      OutMessage.chat mm ∈ chimeraStripMsgs l →
      (mm.role == "tool") = false ∧
      ((mm.role == "assistant") = true → mm.tool_calls = none)) := by
  constructor
  · intro body payload h hch
    constructor
    · rw [format_ok_eq h]
      simp [hch]
    · intro mm hmem
      rw [format_ok_eq h] at hmem
      simp only [hch] at hmem
      rw [if_pos (by simp)] at hmem
      exact chimeraStrip_chat_facts hmem
  · intro l mm hmem
    exact chimeraStrip_chat_facts hmem

/-- C3 witness: the theorem applied to Scenario D of the spec — model
`"claude-3-opus"` aliases to the no-tool-support target; the request
declares tools and an assistant invocation; the payload has no tools field
and the assistant message is stripped of its invocation list. -/
theorem claim3_witness :
    scenarioDPayload.tools = none ∧
    ({ role := "assistant", content := some "use tool", tool_calls := none,
       tool_call_id := none } : OpenAIMessage).tool_calls = none :=
  ⟨(claim3_theorem.1 scenarioDBody scenarioDPayload rfl (by decide)).1,
   ((claim3_theorem.1 scenarioDBody scenarioDPayload rfl (by decide)).2
     { role := "assistant", content := some "use tool" } (by decide)).2
     (by decide)⟩

/-! ## Claim C4 theorems (ephemeral cache marker) -/

/-- C4 counterexample: at the concrete conversation `claudeOpusSysBody`
(source model `"claude-opus"`), every system text part of the returned
payload carries the ephemeral-cache marker even though the aliased target
model identifier does not belong to the prompt-caching (claude) family, so
the marker is not equivalent to the aliased target model's family. -/
theorem claim4_counterexample :
    formatAnthropicToOpenAI claudeOpusSysBody =
      Except.ok claudeOpusSysPayload ∧
    claudeOpusSysPayload.messages =
      [OutMessage.sys { content := [{ text := "hi", cache_control := true }] }] ∧
    includesStr (mapModel claudeOpusSysBody.model) "claude" = false :=
  ⟨rfl, rfl, by decide⟩

/-- C4 amended: each system text part of the output carries the
ephemeral-cache marker if and only if the SOURCE model identifier contains
`"claude"` (the code tests the model string before aliasing, not the
aliased target), and the presence of the marker never changes the text
field of the part (the texts of the constructed system messages do not
depend on the model). -/
theorem claim4_amended :
    (∀ (body : MessageCreateParamsBase) (payload : OpenAIPayload),
      formatAnthropicToOpenAI body = Except.ok payload →
      ∀ sm : SystemMessage, OutMessage.sys sm ∈ payload.messages →
      ∀ part ∈ sm.content,
        part.cache_control = includesStr body.model "claude") ∧
    (∀ (m1 m2 : String) (sys : SystemVal),
      (mkSystemMessages m1 sys).map
          (fun s => s.content.map SystemContentPart.text) =
        (mkSystemMessages m2 sys).map
          (fun s => s.content.map SystemContentPart.text)) := by
  constructor
  · intro body payload h sm hmem part hpart
    have hs : sm ∈ sysMsgsOf payload.messages :=
      List.mem_filterMap.2 ⟨OutMessage.sys sm, hmem, rfl⟩
    rw [sysMsgsOf_payload h] at hs
    cases hv : body.system.getD (SystemVal.arr []) with
    | arr items =>
      rw [hv] at hs
      unfold mkSystemMessages at hs
      rcases List.mem_map.1 hs with ⟨t, _, ht⟩
      rw [← ht] at hpart
      have hp := List.mem_singleton.1 hpart
      rw [hp]
    | str s =>
      rw [hv] at hs
      unfold mkSystemMessages at hs
      have hsm := List.mem_singleton.1 hs
      rw [hsm] at hpart
      have hp := List.mem_singleton.1 hpart
      rw [hp]
  · intro m1 m2 sys
    cases sys with
    | arr items =>
      simp only [mkSystemMessages]
      rw [List.map_map, List.map_map]
      congr 1
    | str s => rfl

/-- C4 witness: the amended theorem applied to a claude-named source
model. -/
theorem claim4_witness :
    ({ text := "sys", cache_control := true } : SystemContentPart).cache_control =
      includesStr claudeHaikuSysBody.model "claude" :=
  claim4_amended.1 claudeHaikuSysBody claudeHaikuSysPayload rfl
    { content := [{ text := "sys", cache_control := true }] } (by decide)
    { text := "sys", cache_control := true } (by decide)

/-! ## Claim C5 theorems (system message construction) -/

/-- C5 counterexample: for the concrete conversation `noSystemBody`, whose
system prompt is absent, the returned payload contains ZERO system
messages, not exactly one as the claim states (the absent prompt defaults
to an empty segment sequence). -/
theorem claim5_counterexample :
    (formatAnthropicToOpenAI noSystemBody).map
        (fun p => (sysMsgsOf p.messages).length) = Except.ok 0 ∧
    noSystemBody.system = none :=
  ⟨rfl, rfl⟩

/-- C5 amended: if the source system prompt is a sequence of segments, the
output contains exactly one system message per segment, each with one text
part carrying that segment's text; if it is a string, exactly one system
message; if it is absent, it is treated as an empty segment sequence and
the output contains ZERO system messages. -/
theorem claim5_amended (body : MessageCreateParamsBase)
    (payload : OpenAIPayload)
    (h : formatAnthropicToOpenAI body = Except.ok payload) :
    (∀ items : List String, body.system = some (SystemVal.arr items) →
      sysMsgsOf payload.messages = items.map (fun t =>
        { content :=
            [{ text := t, cache_control := includesStr body.model "claude" }] })) ∧
    (∀ s : String, body.system = some (SystemVal.str s) →
      sysMsgsOf payload.messages =
        [{ content :=
            [{ text := s, cache_control := includesStr body.model "claude" }] }]) ∧
    (body.system = none → sysMsgsOf payload.messages = []) := by
  refine ⟨?_, ?_, ?_⟩
  · intro items hsys
    rw [sysMsgsOf_payload h, hsys]
    rfl
  · intro s hsys
    rw [sysMsgsOf_payload h, hsys]
    rfl
  · intro hsys
    rw [sysMsgsOf_payload h, hsys]
    rfl

/-- C5 witness: the amended theorem applied to a string system prompt. -/
theorem claim5_witness :
    sysMsgsOf sonnetPlainPayload.messages =
      [{ content := [{ text := "sys", cache_control := false }] }] :=
  (claim5_amended sonnetPlainBody sonnetPlainPayload rfl).2.1 "sys" rfl

end ClaudeProxy
